import Mathlib

/-!
Verification development for `final.py`, a three-stage LLM prompt pipeline.

The program is shallow-embedded as follows.

* JSON values (`Json`) cover null, booleans, integers, strings, arrays and
  objects.  JSON numbers are modelled as integers: inputs with fractional or
  exponent parts (and the `NaN`/`Infinity` extensions) denote floats and lie
  outside the embedding, so the parser model rejects them.  Python dicts are
  modelled as insertion-ordered member lists; lookups read the last binding
  for a key, matching dict assignment semantics.  Strings are lists of
  characters; lone-surrogate escapes (which Lean characters cannot carry) are
  mapped to the null character by `Char.ofNat`.
* The LLM endpoint is an oracle: a function from the call index and the
  prompt to the response text that enters the text-cleaning chain.  An `LLM`
  state carries the oracle together with the list of prompts sent so far.
* `re.search` applications of the three concrete patterns used by the code
  are emulated by deterministic scanners (`search_fenced`, `search_braces`,
  `search_depth2`) that reproduce the leftmost-match backtracking behaviour
  of those patterns.
* Fallible Python operations (`in` and `.get` on arbitrary values) return
  `Except PyErr`, so `process_user_input` can surface the `TypeError` /
  `AttributeError` raises that occur on non-dict stage results.
-/

/-- JSON values as produced by `json.loads` (numbers restricted to integers). -/
inductive Json where
  | null : Json
  | bool (b : Bool) : Json
  | num (n : Int) : Json
  | str (s : List Char) : Json
  | arr (elems : List Json) : Json
  | obj (members : List (List Char × Json)) : Json

/-- Decimal digit character for a value below ten. -/
def digitChar (n : Nat) : Char := Char.ofNat (48 + n)

/-- Decimal digits, most significant first; every step divides by ten, so
fuel one more than the number suffices. -/
def natDigitsF : Nat → Nat → List Char
  | 0, _ => []
  | f + 1, n => if n < 10 then [digitChar n] else natDigitsF f (n / 10) ++ [digitChar (n % 10)]

/-- Decimal digits of a natural number, most significant first. -/
def natDigits (n : Nat) : List Char := natDigitsF (n + 1) n

/-- Decimal rendering of an integer, as Python renders `int`. -/
def intDump : Int → List Char
  | .ofNat n => natDigits n
  | .negSucc n => '-' :: natDigits (n + 1)

/-- Lower-case hexadecimal digit. -/
def hexDigit (n : Nat) : Char := if n < 10 then digitChar n else Char.ofNat (87 + n)

/-- Four-digit hexadecimal rendering used by `\uXXXX` escapes. -/
def hex4 (n : Nat) : List Char :=
  [hexDigit (n / 4096 % 16), hexDigit (n / 256 % 16), hexDigit (n / 16 % 16), hexDigit (n % 16)]

/-- Escaping of one character by `json.dumps` (`ensure_ascii=True`). -/
def escChar (c : Char) : List Char :=
  if c = '"' then ['\\', '"']
  else if c = '\\' then ['\\', '\\']
  else if c = '\n' then ['\\', 'n']
  else if c = '\t' then ['\\', 't']
  else if c = '\r' then ['\\', 'r']
  else if c = Char.ofNat 8 then ['\\', 'b']
  else if c = Char.ofNat 12 then ['\\', 'f']
  else if 32 ≤ c.toNat ∧ c.toNat < 127 then [c]
  else if c.toNat < 65536 then '\\' :: 'u' :: hex4 c.toNat
  else
    ('\\' :: 'u' :: hex4 (55296 + (c.toNat - 65536) / 1024)) ++
      ('\\' :: 'u' :: hex4 (56320 + (c.toNat - 65536) % 1024))

/-- `json.dumps` rendering of a string. -/
def dumpStr (s : List Char) : List Char := '"' :: (s.map escChar).flatten ++ ['"']

mutual

/-- `json.dumps` with default separators. -/
def dumpVal : Json → List Char
  | .null => "null".data
  | .bool true => "true".data
  | .bool false => "false".data
  | .num n => intDump n
  | .str s => dumpStr s
  | .arr xs => '[' :: dumpElems xs ++ [']']
  | .obj kvs => '{' :: dumpMembers kvs ++ ['}']

/-- Array elements joined by `", "`. -/
def dumpElems : List Json → List Char
  | [] => []
  | [x] => dumpVal x
  | x :: y :: rest => dumpVal x ++ ", ".data ++ dumpElems (y :: rest)

/-- Object members joined by `", "`, keys separated by `": "`. -/
def dumpMembers : List (List Char × Json) → List Char
  | [] => []
  | [kv] => dumpStr kv.1 ++ ": ".data ++ dumpVal kv.2
  | kv :: m :: rest => dumpStr kv.1 ++ ": ".data ++ dumpVal kv.2 ++ ", ".data ++ dumpMembers (m :: rest)

end

/-- Indentation run used by `json.dumps(..., indent=2)`. -/
def indSpaces (n : Nat) : List Char := List.replicate n ' '

mutual

/-- `json.dumps(..., indent=2)` at a given indentation level. -/
def dumpIndVal : Nat → Json → List Char
  | _, .null => "null".data
  | _, .bool true => "true".data
  | _, .bool false => "false".data
  | _, .num n => intDump n
  | _, .str s => dumpStr s
  | _, .arr [] => "[]".data
  | lv, .arr (x :: xs) =>
      '[' :: '\n' :: dumpIndElems (lv + 2) (x :: xs) ++ '\n' :: indSpaces lv ++ [']']
  | _, .obj [] => "\x7b\x7d".data
  | lv, .obj (kv :: kvs) =>
      '\x7b' :: '\n' :: dumpIndMembers (lv + 2) (kv :: kvs) ++ '\n' :: indSpaces lv ++ ['\x7d']

/-- Indented array elements, one per line, separated by `",\n"`. -/
def dumpIndElems : Nat → List Json → List Char
  | _, [] => []
  | lv, [x] => indSpaces lv ++ dumpIndVal lv x
  | lv, x :: y :: rest =>
      indSpaces lv ++ dumpIndVal lv x ++ ',' :: '\n' :: dumpIndElems lv (y :: rest)

/-- Indented object members, one per line, separated by `",\n"`. -/
def dumpIndMembers : Nat → List (List Char × Json) → List Char
  | _, [] => []
  | lv, [kv] => indSpaces lv ++ dumpStr kv.1 ++ ": ".data ++ dumpIndVal lv kv.2
  | lv, kv :: m :: rest =>
      indSpaces lv ++ dumpStr kv.1 ++ ": ".data ++ dumpIndVal lv kv.2 ++
        ',' :: '\n' :: dumpIndMembers lv (m :: rest)

end

/-- JSON inter-token whitespace recognised by Python's `json` module. -/
def isJsonWs (c : Char) : Bool := c = ' ' || c = '\t' || c = '\n' || c = '\r'

/-- Skip JSON whitespace. -/
def skipWs (cs : List Char) : List Char := cs.dropWhile isJsonWs

/-- ASCII decimal digit test. -/
def isDigitC (c : Char) : Bool := '0' ≤ c && c ≤ '9'

/-- Split a maximal run of decimal digits off the front. -/
def readDigits : List Char → List Char × List Char
  | [] => ([], [])
  | c :: rest =>
    if isDigitC c then
      let p := readDigits rest
      (c :: p.1, p.2)
    else ([], c :: rest)

/-- Value of a digit string, most significant first. -/
def digitsToNat (ds : List Char) : Nat := ds.foldl (fun a c => a * 10 + (c.toNat - 48)) 0

/-- After an integer literal, a dot or exponent would make it a float:
outside the integer embedding, so the parser model rejects it. -/
def numBad : List Char → Bool
  | [] => false
  | c :: _ => c = '.' || c = 'e' || c = 'E'

/-- Parse an unsigned JSON integer (no leading zeros, as Python's regex). -/
def parseNum : List Char → Option (Nat × List Char)
  | [] => none
  | c :: rest =>
    if c = '0' then
      if numBad rest then none else some (0, rest)
    else if isDigitC c then
      let p := readDigits (c :: rest)
      if numBad p.2 then none else some (digitsToNat p.1, p.2)
    else none

/-- Value of one hexadecimal digit, either case. -/
def hexVal (c : Char) : Option Nat :=
  if '0' ≤ c && c ≤ '9' then some (c.toNat - 48)
  else if 'a' ≤ c && c ≤ 'f' then some (c.toNat - 87)
  else if 'A' ≤ c && c ≤ 'F' then some (c.toNat - 55)
  else none

/-- Value of a four-digit hexadecimal escape. -/
def hex4Val (h1 h2 h3 h4 : Char) : Option Nat :=
  (hexVal h1).bind fun a =>
    (hexVal h2).bind fun b =>
      (hexVal h3).bind fun c =>
        (hexVal h4).map fun d => ((a * 16 + b) * 16 + c) * 16 + d

/-- Simple escape characters accepted after a backslash in a JSON string. -/
def escMap (c : Char) : Option Char :=
  if c = '"' then some '"'
  else if c = '\\' then some '\\'
  else if c = '/' then some '/'
  else if c = 'b' then some (Char.ofNat 8)
  else if c = 'f' then some (Char.ofNat 12)
  else if c = 'n' then some '\n'
  else if c = 'r' then some '\r'
  else if c = 't' then some '\t'
  else none

/-- Parse a JSON string body after the opening quote, in strict mode:
control characters are rejected, surrogate pairs are combined.  Every step
consumes at least one character, so fuel equal to the length suffices. -/
def parseStrF : Nat → List Char → Option (List Char × List Char)
  | 0, _ => none
  | _ + 1, [] => none
  | f + 1, c :: rest =>
    if c = '"' then some ([], rest)
    else if c = '\\' then
      match rest with
      | [] => none
      | e :: rest2 =>
        if e = 'u' then
          match rest2 with
          | h1 :: h2 :: h3 :: h4 :: rest3 =>
            (match hex4Val h1 h2 h3 h4 with
             | none => none
             | some n =>
               if 55296 ≤ n ∧ n ≤ 56319 then
                 match rest3 with
                 | b1 :: b2 :: g1 :: g2 :: g3 :: g4 :: rest4 =>
                   if b1 = '\\' ∧ b2 = 'u' then
                     match hex4Val g1 g2 g3 g4 with
                     | some m =>
                       if 56320 ≤ m ∧ m ≤ 57343 then
                         (parseStrF f rest4).map fun p =>
                           (Char.ofNat (65536 + (n - 55296) * 1024 + (m - 56320)) :: p.1, p.2)
                       else (parseStrF f rest3).map fun p => (Char.ofNat n :: p.1, p.2)
                     | none => (parseStrF f rest3).map fun p => (Char.ofNat n :: p.1, p.2)
                   else (parseStrF f rest3).map fun p => (Char.ofNat n :: p.1, p.2)
                 | _ => (parseStrF f rest3).map fun p => (Char.ofNat n :: p.1, p.2)
               else (parseStrF f rest3).map fun p => (Char.ofNat n :: p.1, p.2))
          | _ => none
        else
          match escMap e with
          | some ch => (parseStrF f rest2).map fun p => (ch :: p.1, p.2)
          | none => none
    else if c.toNat < 32 then none
    else (parseStrF f rest).map fun p => (c :: p.1, p.2)

/-- Parse a JSON string body after the opening quote. -/
def parseStr (cs : List Char) : Option (List Char × List Char) := parseStrF cs.length cs

mutual

/-- Fuel-indexed JSON value parser modelling Python's `json` scanner. -/
def parseVal : Nat → List Char → Option (Json × List Char)
  | 0, _ => none
  | _ + 1, [] => none
  | f + 1, c :: rest =>
    if c = '"' then (parseStr rest).map fun p => (Json.str p.1, p.2)
    else if c = '{' then
      match skipWs rest with
      | [] => (parseMembers f []).map fun p => (Json.obj p.1, p.2)
      | c2 :: r2 =>
        if c2 = '}' then some (Json.obj [], r2)
        else (parseMembers f (c2 :: r2)).map fun p => (Json.obj p.1, p.2)
    else if c = '[' then
      match skipWs rest with
      | [] => (parseElems f []).map fun p => (Json.arr p.1, p.2)
      | c2 :: r2 =>
        if c2 = ']' then some (Json.arr [], r2)
        else (parseElems f (c2 :: r2)).map fun p => (Json.arr p.1, p.2)
    else if c = 't' then
      match rest with
      | 'r' :: 'u' :: 'e' :: r => some (Json.bool true, r)
      | _ => none
    else if c = 'f' then
      match rest with
      | 'a' :: 'l' :: 's' :: 'e' :: r => some (Json.bool false, r)
      | _ => none
    else if c = 'n' then
      match rest with
      | 'u' :: 'l' :: 'l' :: r => some (Json.null, r)
      | _ => none
    else if c = '-' then
      (parseNum rest).map fun p => (Json.num (-(p.1 : Int)), p.2)
    else if isDigitC c then
      (parseNum (c :: rest)).map fun p => (Json.num (p.1 : Int), p.2)
    else none

/-- Parse the elements of a non-empty array up to the closing bracket. -/
def parseElems : Nat → List Char → Option (List Json × List Char)
  | 0, _ => none
  | f + 1, cs =>
    (parseVal f cs).bind fun p =>
      match skipWs p.2 with
      | [] => none
      | c2 :: r2 =>
        if c2 = ',' then (parseElems f (skipWs r2)).map fun q => (p.1 :: q.1, q.2)
        else if c2 = ']' then some ([p.1], r2)
        else none

/-- Parse the members of a non-empty object up to the closing brace. -/
def parseMembers : Nat → List Char → Option (List (List Char × Json) × List Char)
  | 0, _ => none
  | f + 1, cs =>
    match cs with
    | [] => none
    | c :: rest =>
      if c = '"' then
        (parseStr rest).bind fun kp =>
          match skipWs kp.2 with
          | [] => none
          | c2 :: r2 =>
            if c2 = ':' then
              (parseVal f (skipWs r2)).bind fun vp =>
                match skipWs vp.2 with
                | [] => none
                | c3 :: r3 =>
                  if c3 = ',' then
                    (parseMembers f (skipWs r3)).map fun q => ((kp.1, vp.1) :: q.1, q.2)
                  else if c3 = '}' then some ([(kp.1, vp.1)], r3)
                  else none
            else none
      else none


end

/-- `json.loads`: parse a complete document, allowing surrounding whitespace.
`none` models a raised `json.JSONDecodeError`. -/
def json_loads (cs : List Char) : Option Json :=
  match parseVal (cs.length + 1) (skipWs cs) with
  | some (v, rest) => if skipWs rest = [] then some v else none
  | none => none

/-- Whitespace class used by the code's regexes (`\s`) and by `str.strip`
(ASCII part). -/
def isPySpace (c : Char) : Bool :=
  c = ' ' || c = '\t' || c = '\n' || c = '\r' || c = Char.ofNat 11 || c = Char.ofNat 12

/-- `str.strip()`: remove leading and trailing whitespace. -/
def pyStrip (cs : List Char) : List Char :=
  ((cs.dropWhile isPySpace).reverse.dropWhile isPySpace).reverse

/-- `str.lower()` (ASCII). -/
def pyLower (cs : List Char) : List Char := cs.map Char.toLower

/-- `str.replace`: leftmost, non-overlapping.  Every step consumes at least
one character, so fuel equal to the length suffices. -/
def pyReplaceF : Nat → List Char → List Char → List Char → List Char
  | 0, cs, _, _ => cs
  | _ + 1, [], _, _ => []
  | f + 1, c :: rest, pat, rep =>
    if pat.isPrefixOf (c :: rest) then
      rep ++ pyReplaceF f (List.drop pat.length (c :: rest)) pat rep
    else c :: pyReplaceF f rest pat rep

/-- `str.replace` with a non-empty pattern. -/
def pyReplace (cs pat rep : List Char) : List Char := pyReplaceF cs.length cs pat rep

/-- Substring test, as Python's `in` on strings. -/
def isSubstr : List Char → List Char → Bool
  | pat, [] => pat.isEmpty
  | pat, c :: t => pat.isPrefixOf (c :: t) || isSubstr pat t

/-- The literal `` ```json `` opening a fenced block. -/
def fenceOpen : List Char := "\x60\x60\x60json".data

/-- The literal `` ``` `` closing a fenced block. -/
def fenceTicks : List Char := "\x60\x60\x60".data

/-- After the candidate closing brace: `\s*` then the closing fence.  The
whitespace star is deterministic because a backtick is not whitespace. -/
def tailFence (cs : List Char) : Bool := fenceTicks.isPrefixOf (cs.dropWhile isPySpace)

/-- The lazy `.*?\}` scan of the fenced-block pattern: stop at the first
closing brace whose tail matches `\s*` + fence; any other brace joins the
lazy body. -/
def lazyBody : List Char → List Char → Option (List Char)
  | [], _ => none
  | c :: rest, acc =>
    if c = '}' && tailFence rest then some ('{' :: acc.reverse ++ ['}'])
    else lazyBody rest (c :: acc)

/-- Try the pattern ```` ```json\s*(\{.*?\})\s*``` ```` at one position. -/
def matchFenceAt (cs : List Char) : Option (List Char) :=
  if fenceOpen.isPrefixOf cs then
    match (List.drop fenceOpen.length cs).dropWhile isPySpace with
    | '{' :: body => lazyBody body []
    | _ => none
  else none

/-- `re.search` of ```` ```json\s*(\{.*?\})\s*``` ```` with `re.DOTALL`:
leftmost position at which the pattern matches, returning group 1. -/
def search_fenced : List Char → Option (List Char)
  | [] => none
  | c :: rest =>
    match matchFenceAt (c :: rest) with
    | some g => some g
    | none => search_fenced rest

/-- `re.search` of `\{.*\}` with `re.DOTALL`: from the first opening brace
to the last closing brace after it (greedy star). -/
def search_braces (cs : List Char) : Option (List Char) :=
  match cs.dropWhile (fun c => !(c = '{')) with
  | [] => none
  | c :: rest =>
    match rest.reverse.dropWhile (fun d => !(d = '}')) with
    | [] => none
    | revBody => some (c :: revBody.reverse)

/-- Character that is neither brace. -/
def isNonBrace (c : Char) : Bool := !(c = '{') && !(c = '}')

/-- Matching loop for `\{[^{}]*(?:\{[^{}]*\}[^{}]*)*\}` after the opening
brace: the inner stars are forced, so the scan is deterministic; a
depth-three brace fails the whole attempt at this start position. -/
def d2Loop : Nat → List Char → List Char → Option (List Char)
  | 0, _, _ => none
  | f + 1, cs, acc =>
    let pre := cs.takeWhile isNonBrace
    match cs.drop pre.length with
    | '}' :: _ => some (acc ++ pre ++ ['}'])
    | '{' :: rest2 =>
      let pre2 := rest2.takeWhile isNonBrace
      match rest2.drop pre2.length with
      | '}' :: rest3 => d2Loop f rest3 (acc ++ pre ++ '{' :: pre2 ++ ['}'])
      | _ => none
    | _ => none

/-- Try the depth-two object pattern at one position. -/
def matchD2At : List Char → Option (List Char)
  | '{' :: rest => d2Loop (rest.length + 1) rest ['{']
  | _ => none

/-- `re.search` of `(\{[^{}]*(?:\{[^{}]*\}[^{}]*)*\})`: leftmost position at
which the pattern matches. -/
def search_depth2 : List Char → Option (List Char)
  | [] => none
  | c :: rest =>
    match matchD2At (c :: rest) with
    | some g => some g
    | none => search_depth2 rest

/-- The escape replacements at the end of `clean_text`, in source order. -/
def cleanEscapes (cs : List Char) : List Char :=
  pyReplace
    (pyReplace
      (pyReplace
        (pyReplace
          (pyReplace cs "\\n".data "\n".data)
          "\\t".data "\t".data)
        "\\\"".data "\"".data)
      "\\\\".data "\\".data)
    "\\\x27".data "\x27".data

/-- `clean_text` from `final.py`: fenced-block extraction, else fence-marker
deletion plus brace-span extraction; then strip and escape replacements. -/
def clean_text (text : List Char) : List Char :=
  if text = [] then []
  else
    let t :=
      match search_fenced text with
      | some g => g
      | none =>
        let t2 := pyReplace (pyReplace text fenceOpen []) fenceTicks []
        match search_braces t2 with
        | some g => g
        | none => t2
    cleanEscapes (pyStrip t)

/-- The four replacements applied to regex-extracted JSON in the fallback
branches (no tab replacement there, unlike `clean_text`). -/
def fallbackClean (cs : List Char) : List Char :=
  pyReplace
    (pyReplace
      (pyReplace
        (pyReplace cs "\\n".data "\n".data)
        "\\\"".data "\"".data)
      "\\\\".data "\\".data)
    "\\\x27".data "\x27".data

/-- First fallback: re-extract a fenced block from the raw output and parse
it after the fallback replacements. -/
def fb1 (text : List Char) : Option Json :=
  (search_fenced text).bind fun g => json_loads (fallbackClean g)

/-- Second fallback: extract a depth-two brace span from the raw output and
parse it after the fallback replacements. -/
def fb2 (text : List Char) : Option Json :=
  (search_depth2 text).bind fun g => json_loads (fallbackClean g)

/-- The dictionary returned when every parse attempt fails. -/
def parseFailObj (cleaned : List Char) : Json :=
  Json.obj [("raw_output".data, Json.str cleaned), ("error".data, Json.str "Failed to parse JSON".data)]

/-- The JSON-extraction chain shared verbatim by `classify_input`,
`analyze_feature` and `generate_tech_layer`: clean then parse, then the two
regex fallbacks on the raw output, else the failure dictionary. -/
def parse_chain (text : List Char) : Json :=
  let cleaned := clean_text text
  match json_loads cleaned with
  | some v => v
  | none =>
    match fb1 text with
    | some v => v
    | none =>
      match fb2 text with
      | some v => v
      | none => parseFailObj cleaned

/-- A mocked LLM response: the serialization of a value wrapped in a
\x60\x60\x60json ... \x60\x60\x60 markdown fence. -/
def mockFence (o : Json) : List Char := fenceOpen ++ '\n' :: (dumpVal o ++ '\n' :: fenceTicks)

def classifyPre : List Char := "\nYou are an AI Input Classifier.  \n\nYour ONLY job is to read the user input and classify it into **exactly one** of the following categories:  \n\n1. \"General Conversation\"  \n   - Greetings (\"hi\", \"hello\", \"bye\", etc.)  \n   - Small talk or chit-chat  \n   - Questions or dialogue unrelated to video feature creation  \n\n2. \"Feature Description\"  \n   - Any input that provides descriptions intended for **video creation**  \n   - Inputs describing environments, characters, story ideas, creative directions, or cinematic elements  \n\n### Critical Instructions:\n- You MUST return output in **strict JSON format only**.  \n- The JSON must have exactly one key: \x60\"classification\"\x60.  \n- The value must be **either** \x60\"General Conversation\"\x60 **or** \x60\"Feature Description\"\x60.  \n- No explanations, no extra text, no variations in casing, no additional keys.  \n- Do not invent categories. Do not output anything outside the two allowed values.  \n\n### JSON Output Format:\n\x7b\n  \"classification\": \"General Conversation\"\n\x7d\n\nOR\n\n\x7b\n  \"classification\": \"Feature Description\"\n\x7d\n\n### User Input to Classify:\n".data

def classifyPost : List Char := "\n\n".data

def analyzePre : List Char := "\nYou are an AI Feature Analysis Assistant.  \nYour task is to analyze the provided feature description and documentation, then produce a structured JSON output.  \n\nFollow these two phases:\n\n### Phase 1: Concept Analysis\n- Parse feature descriptions and technical documentation  \n- Extract **core value propositions**  \n- Extract **pain points addressed**  \n- Identify **key stakeholders**  \n- Identify **main use cases**  \n\n### Phase 2: Narrative Design\n- Propose **story arcs** for communicating the feature  \n- Suggest **emotional beats and transitions**  \n- Plan **visual and audio synchronization ideas** for presentations or videos  \n\n### Input:\n".data

def analyzePost : List Char := "\n\n### Output (strict JSON only, no extra text):\n\x7b\n  \"concept_analysis\": \x7b\n    \"core_value_propositions\": [],\n    \"pain_points\": [],\n    \"stakeholders\": [],\n    \"use_cases\": []\n  \x7d,\n  \"narrative_design\": \x7b\n    \"story_arcs\": [],\n    \"emotional_beats\": [],\n    \"visual_audio_sync\": []\n  \x7d\n\x7d\n".data

def techPre : List Char := "\nYou are an AI Video Story Architect.  \n\nYou are given two inputs:  \n1. A **feature analysis JSON file** that contains structured insights (creative layer + technical layer).  \n2. A **user request** for generating 8 cinematic video chunks.  \n\nYour task:  \n- Use the **feature analysis JSON** as the foundation for storytelling, emotional arcs, scene design, and VEO3 optimization.  \n- Apply the **user\x27s prompt** requirements strictly:  \n  - Exactly 8 chunks  \n  - Each ~8 seconds  \n  - Completely different environments (no repetition)  \n  - Diverse global characters and professions  \n  - Authentic human activities (no talking heads, no text overlays)  \n  - Optimized for VEO3 generation  \n\nOutput Rules:  \n- Return **ONLY JSON**, nothing else  \n- JSON format must be:  \n\n\x7b\n  \"chunk1\": \x7b \"environment\": \"\", \"characters\": [], \"activity\": \"\", \"camera_direction\": \"\", \"audio_visual_sync\": \"\" \x7d,\n  \"chunk2\": \x7b \"environment\": \"\", \"characters\": [], \"activity\": \"\", \"camera_direction\": \"\", \"audio_visual_sync\": \"\" \x7d,\n  ...\n  \"chunk8\": \x7b \"environment\": \"\", \"characters\": [], \"activity\": \"\", \"camera_direction\": \"\", \"audio_visual_sync\": \"\" \x7d\n\x7d\n\n### Inputs:\n- Feature Analysis JSON: ".data

def techMid : List Char := "\n- User Prompt: ".data

def techPost : List Char := "\n\n".data

def techUserPrompt : List Char := "Generate 8 unique video chunks (~8s each) following cinematic/narrative principles, optimized for VEO3.".data

/-- The LLM endpoint as an oracle: response text for the k-th call, as a
function of the prompt (the text that enters the cleaning chain). -/
def Oracle := Nat → List Char → List Char

/-- LLM call state: the oracle plus the prompts sent so far. -/
structure LLM where
  oracle : Oracle
  trace : List (List Char)

/-- `model.invoke(prompt)`: record the prompt, return the response. -/
def invoke (st : LLM) (prompt : List Char) : List Char × LLM :=
  (st.oracle st.trace.length prompt, ⟨st.oracle, st.trace ++ [prompt]⟩)

/-- Python exceptions that `process_user_input` can raise. -/
inductive PyErr where
  | typeError : PyErr
  | attributeError : PyErr

/-- Key membership in a member list. -/
def hasKeyB (kvs : List (List Char × Json)) (k : List Char) : Bool :=
  kvs.any fun kv => kv.1 == k

/-- Python `==` between a JSON value and a string. -/
def jsonStrEq (v : Json) (s : List Char) : Bool :=
  match v with
  | .str t => t == s
  | _ => false

/-- Python `key in value`: key test on dicts, membership on lists, substring
test on strings; `TypeError` on non-iterables. -/
def py_in (k : List Char) (v : Json) : Except PyErr Bool :=
  match v with
  | .obj kvs => .ok (hasKeyB kvs k)
  | .arr xs => .ok (xs.any fun x => jsonStrEq x k)
  | .str s => .ok (isSubstr k s)
  | _ => .error .typeError

/-- Last binding of a key in a member list (dict assignment semantics). -/
def assocGetLast (kvs : List (List Char × Json)) (k : List Char) : Option Json :=
  kvs.foldl (fun acc kv => if kv.1 = k then some kv.2 else acc) none

/-- Python `value.get(key, default)`: only dicts have `.get`, anything else
raises `AttributeError`. -/
def pyGetOErr (v : Json) (k : List Char) (dflt : Json) : Except PyErr Json :=
  match v with
  | .obj kvs => .ok ((assocGetLast kvs k).getD dflt)
  | _ => .error .attributeError

/-- Python `repr` escaping of one string character for quote `q`. -/
def reprEscChar (q : Char) (c : Char) : List Char :=
  if c = '\\' then ['\\', '\\']
  else if c = q then ['\\', q]
  else if c = '\n' then ['\\', 'n']
  else if c = '\r' then ['\\', 'r']
  else if c = '\t' then ['\\', 't']
  else if c.toNat < 32 || c.toNat = 127 then ['\\', 'x', hexDigit (c.toNat / 16), hexDigit (c.toNat % 16)]
  else [c]

/-- Python `repr` of a string: single-quoted, or double-quoted when the
string holds a single quote but no double quote. -/
def pyStrRepr (s : List Char) : List Char :=
  let q := if s.contains '\x27' && !(s.contains '"') then '"' else '\x27'
  q :: (s.map (reprEscChar q)).flatten ++ [q]

mutual

/-- Python `repr` of a JSON value (used by `str` on containers). -/
def pyRepr : Json → List Char
  | .null => "None".data
  | .bool true => "True".data
  | .bool false => "False".data
  | .num n => intDump n
  | .str s => pyStrRepr s
  | .arr xs => '[' :: reprElems xs ++ [']']
  | .obj kvs => '\x7b' :: reprMembers kvs ++ ['\x7d']

/-- `repr` of list elements, joined by `", "`. -/
def reprElems : List Json → List Char
  | [] => []
  | [x] => pyRepr x
  | x :: y :: rest => pyRepr x ++ ", ".data ++ reprElems (y :: rest)

/-- `repr` of dict members, joined by `", "`, keys separated by `": "`. -/
def reprMembers : List (List Char × Json) → List Char
  | [] => []
  | [kv] => pyStrRepr kv.1 ++ ": ".data ++ pyRepr kv.2
  | kv :: m :: rest => pyStrRepr kv.1 ++ ": ".data ++ pyRepr kv.2 ++ ", ".data ++ reprMembers (m :: rest)

end

/-- Python `str` of a value, as used by `str.format` substitution. -/
def strOfPy : Json → List Char
  | .str s => s
  | v => pyRepr v

/-- The formatted classification prompt. -/
def classify_prompt (user_input : List Char) : List Char :=
  classifyPre ++ user_input ++ classifyPost

/-- `classify_input`: format the prompt, invoke the model, run the chain. -/
def classify_input (user_input : List Char) (st : LLM) : Json × LLM :=
  let r := invoke st (classify_prompt user_input)
  (parse_chain r.1, r.2)

/-- `feature_input.get("description", "")`. -/
def featureDesc (feature_input : List (List Char × Json)) : Json :=
  (assocGetLast feature_input "description".data).getD (Json.str [])

/-- The formatted feature-analysis prompt for a description value. -/
def analyze_prompt (d : Json) : List Char :=
  analyzePre ++ strOfPy d ++ analyzePost

/-- `analyze_feature`: format the prompt from the `description` key, invoke
the model, run the chain. -/
def analyze_feature (feature_input : List (List Char × Json)) (st : LLM) : Json × LLM :=
  let r := invoke st (analyze_prompt (featureDesc feature_input))
  (parse_chain r.1, r.2)

/-- The formatted tech-layer prompt: the feature analysis serialized with
`json.dumps(..., indent=2)` plus the fixed user prompt. -/
def tech_prompt (feature_analysis : Json) : List Char :=
  techPre ++ dumpIndVal 0 feature_analysis ++ techMid ++ techUserPrompt ++ techPost

/-- `generate_tech_layer`: format the prompt, invoke the model, run the
chain. -/
def generate_tech_layer (feature_analysis : Json) (st : LLM) : Json × LLM :=
  let r := invoke st (tech_prompt feature_analysis)
  (parse_chain r.1, r.2)

/-- `"General Conversation"`. -/
def gcVal : List Char := "General Conversation".data

/-- `"Feature Description"`. -/
def fdVal : List Char := "Feature Description".data

/-- `"error"`. -/
def errK : List Char := "error".data

/-- `"classification"`. -/
def classK : List Char := "classification".data

/-- `process_user_input`: classification first, then (for feature
descriptions) analysis and tech layer, with error short-circuits; the
`in`/`.get` operations raise on non-dict stage results. -/
def process_user_input (user_input : List Char) (st : LLM) : Except PyErr Json × LLM :=
  let c := classify_input user_input st
  match py_in errK c.1 with
  | .error e => (.error e, c.2)
  | .ok true =>
    (.ok (Json.obj [(errK, Json.str "Classification failed".data), ("details".data, c.1)]), c.2)
  | .ok false =>
    match pyGetOErr c.1 classK (Json.str []) with
    | .error e => (.error e, c.2)
    | .ok classification =>
      if jsonStrEq classification gcVal then
        (.ok (Json.obj [("workflow".data, Json.str "general_conversation".data),
                        (classK, classification),
                        ("result".data, c.1)]), c.2)
      else if jsonStrEq classification fdVal then
        let a := analyze_feature [("description".data, Json.str user_input)] c.2
        match py_in errK a.1 with
        | .error e => (.error e, a.2)
        | .ok true =>
          (.ok (Json.obj [(errK, Json.str "Feature analysis failed".data),
                          ("details".data, a.1)]), a.2)
        | .ok false =>
          let t := generate_tech_layer a.1 a.2
          match py_in errK t.1 with
          | .error e => (.error e, t.2)
          | .ok true =>
            (.ok (Json.obj [(errK, Json.str "Tech layer failed".data),
                            ("details".data, t.1)]), t.2)
          | .ok false =>
            (.ok (Json.obj [("workflow".data, Json.str "feature_processing".data),
                            (classK, classification),
                            ("feature_analysis".data, a.1),
                            ("tech_layer_result".data, t.1)]), t.2)
      else
        (.ok (Json.obj [(errK, Json.str "Unknown classification".data),
                        (classK, classification)]), c.2)

/-- The exit commands of the CLI loop. -/
def quitWords : List (List Char) := ["quit".data, "exit".data, "q".data]

/-- The accepted save answers of the CLI loop. -/
def yesWords : List (List Char) := ["y".data, "yes".data]

/-- The per-input result file name `workflow_result_{n}.json`. -/
def wrName (n : Nat) : List Char := "workflow_result_".data ++ natDigits n ++ ".json".data

/-- One console interaction of the CLI loop: the text entered at the input
prompt and the answer to the save prompt. -/
structure CliEvent where
  raw : List Char
  save : List Char

/-- The `__main__` loop of `final.py` over a list of console interactions:
quit commands break, empty inputs are skipped, exceptions from processing
are caught and the loop continues; a `y`/`yes` save answer writes
`workflow_result_{n}.json`.  Returns the collected results and the files
written so far. -/
def cli_loop : List CliEvent → LLM → Nat → List (List Char × Json) →
    List (List Char × Json) → List (List Char × Json) × List (List Char × Json)
  | [], _, _, results, files => (results, files)
  | ev :: rest, st, tc, results, files =>
    let user_input := pyStrip ev.raw
    if quitWords.contains (pyLower user_input) then (results, files)
    else if user_input = [] then cli_loop rest st tc results files
    else
      let r := process_user_input user_input st
      match r.1 with
      | .error _ => cli_loop rest r.2 (tc + 1) results files
      | .ok result =>
        let results2 := results ++ [(user_input, result)]
        if yesWords.contains (pyLower (pyStrip ev.save)) then
          cli_loop rest r.2 (tc + 1) results2 (files ++ [(wrName (tc + 1), result)])
        else cli_loop rest r.2 (tc + 1) results2 files

/-- A run of the program's `__main__` under an oracle: the list of files
written, with the summary file `all_workflow_results.json` appended after
the loop when any input was processed. -/
def cli_run (events : List CliEvent) (ora : Oracle) : List (List Char × Json) :=
  let p := cli_loop events ⟨ora, []⟩ 0 [] []
  if p.1.isEmpty then p.2
  else
    p.2 ++ [("all_workflow_results.json".data,
             Json.arr (p.1.map fun q => Json.obj [("input".data, Json.str q.1), ("result".data, q.2)]))]

def isObj : Json → Bool
  | .obj _ => true
  | _ => false

def hasKeyJ : Json → List Char → Bool
  | .obj kvs, k => hasKeyB kvs k
  | _, _ => false

def jLookup : Json → List Char → Option Json
  | .obj kvs, k => assocGetLast kvs k
  | _, _ => none

def jGetD (v : Json) (k : List Char) (d : Json) : Json := (jLookup v k).getD d

def passesErr (v : Json) : Bool :=
  match py_in errK v with
  | .ok false => true
  | _ => false

def stage1 (u : List Char) (ora : Oracle) : Json := parse_chain (ora 0 (classify_prompt u))

def stage2 (u : List Char) (ora : Oracle) : Json :=
  parse_chain (ora 1 (analyze_prompt (Json.str u)))

def stage3 (u : List Char) (ora : Oracle) : Json :=
  parse_chain (ora 2 (tech_prompt (stage2 u ora)))

def proceedsToFeature (c : Json) : Bool :=
  isObj c && !(hasKeyJ c errK) && jsonStrEq (jGetD c classK (Json.str [])) fdVal

def gcCase (c : Json) : Bool :=
  isObj c && !(hasKeyJ c errK) && jsonStrEq (jGetD c classK (Json.str [])) gcVal

def classifyFailWrap (c : Json) : Json :=
  Json.obj [(errK, Json.str "Classification failed".data), ("details".data, c)]

def gcWrap (c : Json) : Json :=
  Json.obj [("workflow".data, Json.str "general_conversation".data),
            (classK, jGetD c classK (Json.str [])),
            ("result".data, c)]

def analyzeFailWrap (a : Json) : Json :=
  Json.obj [(errK, Json.str "Feature analysis failed".data), ("details".data, a)]

def techFailWrap (t : Json) : Json :=
  Json.obj [(errK, Json.str "Tech layer failed".data), ("details".data, t)]

def featureWrap (c a t : Json) : Json :=
  Json.obj [("workflow".data, Json.str "feature_processing".data),
            (classK, jGetD c classK (Json.str [])),
            ("feature_analysis".data, a),
            ("tech_layer_result".data, t)]

def unknownWrap (c : Json) : Json :=
  Json.obj [(errK, Json.str "Unknown classification".data),
            (classK, jGetD c classK (Json.str []))]

def procResult (u : List Char) (ora : Oracle) : Except PyErr Json :=
  let c := stage1 u ora
  match py_in errK c with
  | .error e => .error e
  | .ok true => .ok (classifyFailWrap c)
  | .ok false =>
    match pyGetOErr c classK (Json.str []) with
    | .error e => .error e
    | .ok classification =>
      if jsonStrEq classification gcVal then .ok (gcWrap c)
      else if jsonStrEq classification fdVal then
        let a := stage2 u ora
        match py_in errK a with
        | .error e => .error e
        | .ok true => .ok (analyzeFailWrap a)
        | .ok false =>
          let t := stage3 u ora
          match py_in errK t with
          | .error e => .error e
          | .ok true => .ok (techFailWrap t)
          | .ok false => .ok (featureWrap c a t)
      else .ok (unknownWrap c)

def procTrace (u : List Char) (ora : Oracle) : List (List Char) :=
  classify_prompt u ::
    (if proceedsToFeature (stage1 u ora) then
       analyze_prompt (Json.str u) ::
         (if passesErr (stage2 u ora) then [tech_prompt (stage2 u ora)] else [])
     else [])




/-- Characters that `json.dumps` emits verbatim inside a string and that
cannot disturb the fenced-block regex: printable ASCII other than the double
quote, the backslash and the backtick. -/
def okChar (c : Char) : Bool :=
  32 ≤ c.toNat && c.toNat ≤ 126 && !(c = '"') && !(c = '\\') && !(c = '\x60')

mutual

/-- Every string in the value consists of `okChar` characters. -/
def jsonOkVal : Json → Bool
  | .null => true
  | .bool _ => true
  | .num _ => true
  | .str s => s.all okChar
  | .arr xs => jsonOkElems xs
  | .obj kvs => jsonOkMembers kvs

/-- `jsonOkVal` over array elements. -/
def jsonOkElems : List Json → Bool
  | [] => true
  | x :: xs => jsonOkVal x && jsonOkElems xs

/-- `jsonOkVal` over object members, keys included. -/
def jsonOkMembers : List (List Char × Json) → Bool
  | [] => true
  | kv :: rest => kv.1.all okChar && jsonOkVal kv.2 && jsonOkMembers rest

end

mutual

/-- Fuel consumed by `parseVal` on the serialization of a value. -/
def fuelNeedVal : Json → Nat
  | .null => 1
  | .bool _ => 1
  | .num _ => 1
  | .str _ => 1
  | .arr [] => 1
  | .arr (x :: xs) => 1 + fuelNeedElems (x :: xs)
  | .obj [] => 1
  | .obj (kv :: kvs) => 1 + fuelNeedMembers (kv :: kvs)

/-- Fuel consumed by `parseElems` on serialized elements. -/
def fuelNeedElems : List Json → Nat
  | [] => 0
  | [x] => 1 + fuelNeedVal x
  | x :: y :: ys => 1 + fuelNeedVal x + fuelNeedElems (y :: ys)

/-- Fuel consumed by `parseMembers` on serialized members. -/
def fuelNeedMembers : List (List Char × Json) → Nat
  | [] => 0
  | [kv] => 1 + fuelNeedVal kv.2
  | kv :: m :: rest => 1 + fuelNeedVal kv.2 + fuelNeedMembers (m :: rest)

end

/-- The next character cannot extend or float-ify a just-parsed integer. -/
def numSafeB : List Char → Bool
  | [] => true
  | c :: _ => !isDigitC c && !(c = '.') && !(c = 'e') && !(c = 'E')

/-- The five escape replacements of `clean_text`, in the order claimed. -/
def escapePairs : List (List Char × List Char) :=
  [("\\n".data, "\n".data), ("\\t".data, "\t".data), ("\\\"".data, "\"".data),
   ("\\\\".data, "\\".data), ("\\\x27".data, "\x27".data)]

/-- Escape phase as the claim describes it: the replacements applied in
order. -/
def escapePhase (cs : List Char) : List Char :=
  escapePairs.foldl (fun acc pr => pyReplace acc pr.1 pr.2) cs

/-- Extraction phase as the claim describes it: take a fenced JSON object if
one matches, otherwise delete the fence markers and keep a brace span if one
matches. -/
def extractPhase (text : List Char) : List Char :=
  match search_fenced text with
  | some g => g
  | none =>
    let deleted := pyReplace (pyReplace text fenceOpen []) fenceTicks []
    match search_braces deleted with
    | some g => g
    | none => deleted

/-- `clean_text` as described by the specification: extraction, then strip,
then the escape replacements. -/
def clean_text_spec (text : List Char) : List Char :=
  escapePhase (pyStrip (extractPhase text))

/-- All three parse attempts of the extraction chain fail on this text. -/
def parseFailsAll (text : List Char) : Bool :=
  (json_loads (clean_text text)).isNone && (fb1 text).isNone && (fb2 text).isNone

/-- Classification result is an error-free dictionary whose classification
value is neither of the two known categories. -/
def unknownCase (c : Json) : Bool :=
  isObj c && !(hasKeyJ c errK)
    && !(jsonStrEq (jGetD c classK (Json.str [])) gcVal)
    && !(jsonStrEq (jGetD c classK (Json.str [])) fdVal)

theorem py_in_str (k s : List Char) : py_in k (Json.str s) = .ok (isSubstr k s) := rfl

theorem py_in_arr (k : List Char) (xs : List Json) :
    py_in k (Json.arr xs) = .ok (xs.any fun x => jsonStrEq x k) := rfl

theorem py_in_obj (k : List Char) (kvs : List (List Char × Json)) :
    py_in k (Json.obj kvs) = .ok (hasKeyB kvs k) := rfl

theorem pyGetOErr_obj (kvs : List (List Char × Json)) (k : List Char) (d : Json) :
    pyGetOErr (Json.obj kvs) k d = .ok ((assocGetLast kvs k).getD d) := rfl

theorem isObj_obj (kvs : List (List Char × Json)) : isObj (Json.obj kvs) = true := rfl

theorem hasKeyJ_obj (kvs : List (List Char × Json)) (k : List Char) :
    hasKeyJ (Json.obj kvs) k = hasKeyB kvs k := rfl

theorem jGetD_obj (kvs : List (List Char × Json)) (k : List Char) (d : Json) :
    jGetD (Json.obj kvs) k d = (assocGetLast kvs k).getD d := rfl

theorem jsonStrEq_ne (v : Json) (s t : List Char) (hst : s ≠ t)
    (h : jsonStrEq v s = true) : jsonStrEq v t = false := by
  rcases v with _ | b | n | w | xs | kvs <;> simp only [jsonStrEq] at h ⊢
  rw [beq_iff_eq] at h
  subst h
  simpa using hst

theorem process_run_eq (u : List Char) (ora : Oracle) :
    process_user_input u ⟨ora, []⟩ = (procResult u ora, ⟨ora, procTrace u ora⟩) := by
  have hfd : featureDesc [("description".data, Json.str u)] = Json.str u := rfl
  unfold procResult procTrace stage3 stage2 stage1 proceedsToFeature passesErr
    process_user_input classify_input analyze_feature generate_tech_layer invoke
  simp only [hfd, List.length_nil, List.nil_append, List.length_cons, Nat.zero_add,
    Nat.reduceAdd, List.cons_append]
  generalize parse_chain (ora 0 (classify_prompt u)) = c
  rcases c with _ | b | n | s | xs | kvs
  · rfl
  · rfl
  · rfl
  · cases hs : isSubstr errK s <;> simp only [py_in_str, hs] <;> rfl
  · cases hxs : xs.any (fun x => jsonStrEq x errK) <;> simp only [py_in_arr, hxs] <;> rfl
  · cases hk : hasKeyB kvs errK
    · simp only [py_in_obj, pyGetOErr_obj, isObj_obj, hasKeyJ_obj, jGetD_obj, hk]
      cases hgc : jsonStrEq ((assocGetLast kvs classK).getD (Json.str [])) gcVal
      · cases hfd2 : jsonStrEq ((assocGetLast kvs classK).getD (Json.str [])) fdVal
        · rfl
        · generalize parse_chain (ora 1 (analyze_prompt (Json.str u))) = a
          rcases a with _ | b2 | n2 | s2 | xs2 | kvs2
          · rfl
          · rfl
          · rfl
          · cases hs2 : isSubstr errK s2
            · simp only [py_in_str, hs2]
              generalize parse_chain (ora 2 (tech_prompt (Json.str s2))) = t
              rcases t with _ | b3 | n3 | s3 | xs3 | kvs3
              · rfl
              · rfl
              · rfl
              · cases hs3 : isSubstr errK s3 <;> simp only [py_in_str, hs3] <;> rfl
              · cases hxs3 : xs3.any (fun x => jsonStrEq x errK) <;>
                  simp only [py_in_arr, hxs3] <;> rfl
              · cases hk3 : hasKeyB kvs3 errK <;> simp only [py_in_obj, hk3] <;> rfl
            · simp only [py_in_str, hs2]
              rfl
          · cases hxs2 : xs2.any (fun x => jsonStrEq x errK)
            · simp only [py_in_arr, hxs2]
              generalize parse_chain (ora 2 (tech_prompt (Json.arr xs2))) = t
              rcases t with _ | b3 | n3 | s3 | xs3 | kvs3
              · rfl
              · rfl
              · rfl
              · cases hs3 : isSubstr errK s3 <;> simp only [py_in_str, hs3] <;> rfl
              · cases hxs3 : xs3.any (fun x => jsonStrEq x errK) <;>
                  simp only [py_in_arr, hxs3] <;> rfl
              · cases hk3 : hasKeyB kvs3 errK <;> simp only [py_in_obj, hk3] <;> rfl
            · simp only [py_in_arr, hxs2]
              rfl
          · cases hk2 : hasKeyB kvs2 errK
            · simp only [py_in_obj, hk2]
              generalize parse_chain (ora 2 (tech_prompt (Json.obj kvs2))) = t
              rcases t with _ | b3 | n3 | s3 | xs3 | kvs3
              · rfl
              · rfl
              · rfl
              · cases hs3 : isSubstr errK s3 <;> simp only [py_in_str, hs3] <;> rfl
              · cases hxs3 : xs3.any (fun x => jsonStrEq x errK) <;>
                  simp only [py_in_arr, hxs3] <;> rfl
              · cases hk3 : hasKeyB kvs3 errK <;> simp only [py_in_obj, hk3] <;> rfl
            · simp only [py_in_obj, hk2]
              rfl
      · have hnf := jsonStrEq_ne _ gcVal fdVal (by decide) hgc
        simp only [hnf]
        rfl
    · simp only [py_in_obj, isObj_obj, hasKeyJ_obj, hk]
      rfl

theorem parse_chain_fail (text : List Char) (h : parseFailsAll text = true) :
    parse_chain text = parseFailObj (clean_text text) := by
  unfold parseFailsAll at h
  simp only [Bool.and_eq_true, Option.isNone_iff_eq_none] at h
  unfold parse_chain
  simp only [h.1.1, h.1.2, h.2]

/-- Claim C6: `clean_text` is exactly the described sequence: fenced-block
extraction, else fence-marker deletion plus brace-span extraction, then
strip, then the five escape replacements in order. -/
theorem claim_C6_clean_text_refines (text : List Char) :
    clean_text text = clean_text_spec text := by
  have hE : ∀ Y : List Char, escapePhase Y = cleanEscapes Y := fun _ => rfl
  unfold clean_text_spec
  rw [hE]
  cases text with
  | nil => rfl
  | cons c cs =>
    unfold clean_text extractPhase
    rw [if_neg (List.cons_ne_nil c cs)]

/-- Claim C9: `analyze_feature` depends only on the `description` value of
its input dictionary (missing key read as the empty string): equal
descriptions under the same LLM state give equal results. -/
theorem claim_C9_analyze_depends_only_on_description
    (fi1 fi2 : List (List Char × Json)) (st : LLM)
    (h : featureDesc fi1 = featureDesc fi2) :
    analyze_feature fi1 st = analyze_feature fi2 st := by
  unfold analyze_feature
  rw [h]

theorem claim_C9_witness :
    featureDesc [("description".data, Json.str "x".data), ("z".data, Json.num 1)]
        = featureDesc [("description".data, Json.str "x".data)]
    ∧ analyze_feature [("description".data, Json.str "x".data), ("z".data, Json.num 1)]
          ⟨fun _ _ => [], []⟩
        = analyze_feature [("description".data, Json.str "x".data)] ⟨fun _ _ => [], []⟩ :=
  ⟨rfl, claim_C9_analyze_depends_only_on_description _ _ _ rfl⟩

/-- Claim C8 counterexample: on the oracle response `5`, `classify_input`
returns the integer `5`, not a dictionary. -/
theorem claim_C8_counterexample :
    (classify_input "hi".data ⟨fun _ _ => "5".data, []⟩).1 = Json.num 5
      ∧ isObj (Json.num 5) = false :=
  ⟨rfl, rfl⟩

/-- Claim C8 (amended): each stage function totally returns a JSON value
(never raises), and whenever the cleaned text and both regex re-extractions
all fail to parse, the returned value is exactly
`{"raw_output": cleaned, "error": "Failed to parse JSON"}`. -/
theorem claim_C8_failed_parse_result (u : List Char) (fi : List (List Char × Json))
    (fa : Json) (st : LLM)
    (h1 : parseFailsAll (st.oracle st.trace.length (classify_prompt u)) = true)
    (h2 : parseFailsAll (st.oracle st.trace.length (analyze_prompt (featureDesc fi))) = true)
    (h3 : parseFailsAll (st.oracle st.trace.length (tech_prompt fa)) = true) :
    (classify_input u st).1
        = parseFailObj (clean_text (st.oracle st.trace.length (classify_prompt u)))
    ∧ (analyze_feature fi st).1
        = parseFailObj (clean_text (st.oracle st.trace.length (analyze_prompt (featureDesc fi))))
    ∧ (generate_tech_layer fa st).1
        = parseFailObj (clean_text (st.oracle st.trace.length (tech_prompt fa))) :=
  ⟨parse_chain_fail _ h1, parse_chain_fail _ h2, parse_chain_fail _ h3⟩

theorem claim_C8_witness :
    parseFailsAll "hello".data = true
    ∧ ((classify_input "hi".data ⟨fun _ _ => "hello".data, []⟩).1
          = parseFailObj (clean_text "hello".data)
       ∧ (analyze_feature [] ⟨fun _ _ => "hello".data, []⟩).1
          = parseFailObj (clean_text "hello".data)
       ∧ (generate_tech_layer Json.null ⟨fun _ _ => "hello".data, []⟩).1
          = parseFailObj (clean_text "hello".data)) :=
  ⟨by decide, claim_C8_failed_parse_result "hi".data [] Json.null
      ⟨fun _ _ => "hello".data, []⟩ (by decide) (by decide) (by decide)⟩

theorem jsonStrEq_true_eq (v : Json) (s : List Char) (h : jsonStrEq v s = true) :
    v = Json.str s := by
  rcases v with _ | b | n | w | xs | kvs <;> simp only [jsonStrEq, Bool.false_eq_true] at h
  rw [beq_iff_eq] at h
  rw [h]

theorem pyGetOErr_ok {v : Json} {k : List Char} {dflt x : Json}
    (h : pyGetOErr v k dflt = Except.ok x) : jGetD v k dflt = x := by
  rcases v with _ | b | n | s | xs | kvs
  · exact Except.noConfusion h
  · exact Except.noConfusion h
  · exact Except.noConfusion h
  · exact Except.noConfusion h
  · exact Except.noConfusion h
  · injection h

theorem procResult_shape (u : List Char) (ora : Oracle) (d : Json)
    (h : procResult u ora = Except.ok d) :
    d = classifyFailWrap (stage1 u ora)
    ∨ (d = gcWrap (stage1 u ora)
        ∧ jGetD (stage1 u ora) classK (Json.str []) = Json.str gcVal)
    ∨ d = analyzeFailWrap (stage2 u ora)
    ∨ d = techFailWrap (stage3 u ora)
    ∨ (d = featureWrap (stage1 u ora) (stage2 u ora) (stage3 u ora)
        ∧ jGetD (stage1 u ora) classK (Json.str []) = Json.str fdVal
        ∧ passesErr (stage3 u ora) = true)
    ∨ d = unknownWrap (stage1 u ora) := by
  simp only [procResult] at h
  rcases hin : py_in errK (stage1 u ora) with e | b
  · simp only [hin] at h
    exact Except.noConfusion h
  · simp only [hin] at h
    cases b
    · rcases hget : pyGetOErr (stage1 u ora) classK (Json.str []) with e2 | cl
      · simp only [hget] at h
        exact Except.noConfusion h
      · simp only [hget] at h
        have hcl : jGetD (stage1 u ora) classK (Json.str []) = cl := pyGetOErr_ok hget
        cases hgc : jsonStrEq cl gcVal
        · simp only [hgc, Bool.false_eq_true, if_false] at h
          cases hfd2 : jsonStrEq cl fdVal
          · simp only [hfd2, Bool.false_eq_true, if_false] at h
            injection h with h2
            exact Or.inr (Or.inr (Or.inr (Or.inr (Or.inr h2.symm))))
          · simp only [hfd2, if_true] at h
            rcases hina : py_in errK (stage2 u ora) with e3 | b3
            · simp only [hina] at h
              exact Except.noConfusion h
            · simp only [hina] at h
              cases b3
              · rcases hint : py_in errK (stage3 u ora) with e4 | b4
                · simp only [hint] at h
                  exact Except.noConfusion h
                · simp only [hint] at h
                  cases b4
                  · injection h with h2
                    refine Or.inr (Or.inr (Or.inr (Or.inr (Or.inl ⟨h2.symm, ?_, ?_⟩))))
                    · rw [hcl]
                      exact jsonStrEq_true_eq _ _ hfd2
                    · simp only [passesErr, hint]
                  · injection h with h2
                    exact Or.inr (Or.inr (Or.inr (Or.inl h2.symm)))
              · injection h with h2
                exact Or.inr (Or.inr (Or.inl h2.symm))
        · simp only [hgc, if_true] at h
          injection h with h2
          refine Or.inr (Or.inl ⟨h2.symm, ?_⟩)
          rw [hcl]
          exact jsonStrEq_true_eq _ _ hgc
    · injection h with h2
      exact Or.inl h2.symm

theorem py_in_of_passesErr (v : Json) (h : passesErr v = true) :
    py_in errK v = Except.ok false := by
  unfold passesErr at h
  rcases hp : py_in errK v with e | b
  · rw [hp] at h
    exact absurd h Bool.false_ne_true
  · rw [hp] at h
    cases b
    · rfl
    · exact absurd h Bool.false_ne_true

theorem isObj_elim {c : Json} (h : isObj c = true) : ∃ kvs, c = Json.obj kvs := by
  cases c <;> simp only [isObj, Bool.false_eq_true] at h
  exact ⟨_, rfl⟩

theorem gcCase_elim (c : Json) (h : gcCase c = true) :
    py_in errK c = Except.ok false
    ∧ pyGetOErr c classK (Json.str []) = Except.ok (jGetD c classK (Json.str []))
    ∧ jsonStrEq (jGetD c classK (Json.str [])) gcVal = true := by
  unfold gcCase at h
  simp only [Bool.and_eq_true, Bool.not_eq_true'] at h
  obtain ⟨⟨h1, h2⟩, h3⟩ := h
  obtain ⟨kvs, rfl⟩ := isObj_elim h1
  refine ⟨?_, rfl, h3⟩
  rw [py_in_obj]
  rw [show hasKeyB kvs errK = false from h2]

theorem proceedsToFeature_elim (c : Json) (h : proceedsToFeature c = true) :
    py_in errK c = Except.ok false
    ∧ pyGetOErr c classK (Json.str []) = Except.ok (jGetD c classK (Json.str []))
    ∧ jsonStrEq (jGetD c classK (Json.str [])) fdVal = true := by
  unfold proceedsToFeature at h
  simp only [Bool.and_eq_true, Bool.not_eq_true'] at h
  obtain ⟨⟨h1, h2⟩, h3⟩ := h
  obtain ⟨kvs, rfl⟩ := isObj_elim h1
  refine ⟨?_, rfl, h3⟩
  rw [py_in_obj]
  rw [show hasKeyB kvs errK = false from h2]

theorem unknownCase_elim (c : Json) (h : unknownCase c = true) :
    py_in errK c = Except.ok false
    ∧ pyGetOErr c classK (Json.str []) = Except.ok (jGetD c classK (Json.str []))
    ∧ jsonStrEq (jGetD c classK (Json.str [])) gcVal = false
    ∧ jsonStrEq (jGetD c classK (Json.str [])) fdVal = false := by
  unfold unknownCase at h
  simp only [Bool.and_eq_true, Bool.not_eq_true'] at h
  obtain ⟨⟨⟨h1, h2⟩, h3⟩, h4⟩ := h
  obtain ⟨kvs, rfl⟩ := isObj_elim h1
  refine ⟨?_, rfl, h3, h4⟩
  rw [py_in_obj]
  rw [show hasKeyB kvs errK = false from h2]

theorem procResult_gc (u : List Char) (ora : Oracle) (h : gcCase (stage1 u ora) = true) :
    procResult u ora = Except.ok (gcWrap (stage1 u ora)) := by
  obtain ⟨hin, hget, hgc⟩ := gcCase_elim _ h
  simp only [procResult, hin, hget, hgc, if_true]

theorem procResult_unknown (u : List Char) (ora : Oracle)
    (h : unknownCase (stage1 u ora) = true) :
    procResult u ora = Except.ok (unknownWrap (stage1 u ora)) := by
  obtain ⟨hin, hget, hgc, hfd⟩ := unknownCase_elim _ h
  simp only [procResult, hin, hget, hgc, hfd, Bool.false_eq_true, if_false]

/-- Claim C2 counterexample: the classification value equals
`"Feature Description"`, yet only one further LLM call is made (the analysis
response fails to parse and the pipeline short-circuits before the tech
layer), so the trace has two entries rather than three. -/
theorem claim_C2_counterexample :
    jsonStrEq
        (jGetD
          (stage1 "hi".data
            (fun n _ =>
              if n = 0 then "\x7b\"classification\": \"Feature Description\"\x7d".data
              else "x".data))
          classK (Json.str []))
        fdVal = true
    ∧ (process_user_input "hi".data
          ⟨fun n _ =>
            if n = 0 then "\x7b\"classification\": \"Feature Description\"\x7d".data
            else "x".data, []⟩).2.trace.length = 2 :=
  ⟨rfl, rfl⟩

/-- Claim C2 (amended): the classification call always comes first; when the
classification result is an error-free dictionary classified
`"Feature Description"`, `analyze_feature` is invoked on
`{"description": user_input}` and `generate_tech_layer` is invoked on the
analysis result exactly when that result passes the error check; in every
other case (including `"General Conversation"`, whose result wraps the
classification result) no further LLM calls are made. -/
theorem claim_C2_pipeline_order (u : List Char) (ora : Oracle) :
    (process_user_input u ⟨ora, []⟩).2.trace
      = classify_prompt u ::
          (if proceedsToFeature (stage1 u ora) = true then
             analyze_prompt (Json.str u) ::
               (if passesErr (stage2 u ora) = true then [tech_prompt (stage2 u ora)] else [])
           else [])
    ∧ (if gcCase (stage1 u ora) = true then
         (process_user_input u ⟨ora, []⟩).1 = Except.ok (gcWrap (stage1 u ora))
       else True) := by
  constructor
  · rw [process_run_eq]
    rfl
  · cases hgc : gcCase (stage1 u ora)
    · trivial
    · rw [process_run_eq]
      exact procResult_gc u ora hgc

/-- Claim C10 counterexample: on the oracle response `5` the classification
result is the integer `5`, and `"error" in 5` raises `TypeError`, so
`process_user_input` returns no dictionary at all. -/
theorem claim_C10_counterexample :
    (process_user_input "hi".data ⟨fun _ _ => "5".data, []⟩).1
      = Except.error PyErr.typeError := rfl

/-- Claim C10 (amended): whenever `process_user_input` returns without
raising, the returned value is a dictionary carrying exactly one of the
top-level keys `workflow` and `error`. -/
theorem claim_C10_result_key_dichotomy (u : List Char) (ora : Oracle) (d : Json)
    (h : (process_user_input u ⟨ora, []⟩).1 = Except.ok d) :
    isObj d = true ∧ hasKeyJ d "workflow".data = !(hasKeyJ d errK) := by
  rw [process_run_eq] at h
  replace h : procResult u ora = Except.ok d := h
  rcases procResult_shape u ora d h with h1 | ⟨h1, _⟩ | h1 | h1 | ⟨h1, _, _⟩ | h1 <;>
    subst h1 <;> exact ⟨rfl, rfl⟩

theorem claim_C10_witness :
    ((process_user_input "hi".data
        ⟨fun _ _ => "\x7b\"classification\": \"General Conversation\"\x7d".data, []⟩).1
      = Except.ok (gcWrap (Json.obj [(classK, Json.str gcVal)])))
    ∧ (isObj (gcWrap (Json.obj [(classK, Json.str gcVal)])) = true
       ∧ hasKeyJ (gcWrap (Json.obj [(classK, Json.str gcVal)])) "workflow".data
          = !(hasKeyJ (gcWrap (Json.obj [(classK, Json.str gcVal)])) errK)) :=
  ⟨rfl,
    claim_C10_result_key_dichotomy "hi".data
      (fun _ _ => "\x7b\"classification\": \"General Conversation\"\x7d".data)
      (gcWrap (Json.obj [(classK, Json.str gcVal)])) rfl⟩

/-- Claim C4: every non-error (`workflow`-carrying) result of
`process_user_input` has classification value `"General Conversation"` or
`"Feature Description"`; an error-free dictionary classification with any
other value yields the `"Unknown classification"` error result. -/
theorem claim_C4_two_categories (u : List Char) (ora : Oracle) :
    (match (process_user_input u ⟨ora, []⟩).1 with
      | Except.ok d =>
          hasKeyJ d "workflow".data = false
          ∨ jGetD d classK (Json.str []) = Json.str gcVal
          ∨ jGetD d classK (Json.str []) = Json.str fdVal
      | Except.error _ => True)
    ∧ (if unknownCase (stage1 u ora) = true then
         (process_user_input u ⟨ora, []⟩).1 = Except.ok (unknownWrap (stage1 u ora))
         ∧ hasKeyJ (unknownWrap (stage1 u ora)) errK = true
       else True) := by
  constructor
  · rcases hres : (process_user_input u ⟨ora, []⟩).1 with e | d
    · trivial
    · show hasKeyJ d "workflow".data = false
          ∨ jGetD d classK (Json.str []) = Json.str gcVal
          ∨ jGetD d classK (Json.str []) = Json.str fdVal
      rw [process_run_eq] at hres
      replace hres : procResult u ora = Except.ok d := hres
      rcases procResult_shape u ora d hres with h1 | ⟨h1, hv⟩ | h1 | h1 | ⟨h1, hv, _⟩ | h1 <;>
        subst h1
      · exact Or.inl rfl
      · exact Or.inr (Or.inl hv)
      · exact Or.inl rfl
      · exact Or.inl rfl
      · exact Or.inr (Or.inr hv)
      · exact Or.inl rfl
  · cases hu : unknownCase (stage1 u ora)
    · trivial
    · show (process_user_input u ⟨ora, []⟩).1 = Except.ok (unknownWrap (stage1 u ora))
          ∧ hasKeyJ (unknownWrap (stage1 u ora)) errK = true
      refine ⟨?_, rfl⟩
      rw [process_run_eq]
      exact procResult_unknown u ora hu

theorem procTrace_noFeature (u : List Char) (ora : Oracle)
    (h : proceedsToFeature (stage1 u ora) = false) :
    procTrace u ora = [classify_prompt u] := by
  simp only [procTrace, h, Bool.false_eq_true, if_false]

theorem procTrace_noTech (u : List Char) (ora : Oracle)
    (hpf : proceedsToFeature (stage1 u ora) = true)
    (hpe : passesErr (stage2 u ora) = false) :
    procTrace u ora = [classify_prompt u, analyze_prompt (Json.str u)] := by
  simp only [procTrace, hpf, hpe, Bool.false_eq_true, if_false, if_true]

theorem procTrace_full (u : List Char) (ora : Oracle)
    (hpf : proceedsToFeature (stage1 u ora) = true)
    (hpe : passesErr (stage2 u ora) = true) :
    procTrace u ora
      = [classify_prompt u, analyze_prompt (Json.str u), tech_prompt (stage2 u ora)] := by
  simp only [procTrace, hpf, hpe, if_true]

theorem noFeature_of_err {c : Json} (h1 : isObj c = true) (h2 : hasKeyJ c errK = true) :
    proceedsToFeature c = false := by
  obtain ⟨kvs, rfl⟩ := isObj_elim h1
  simp only [proceedsToFeature, isObj_obj, hasKeyJ_obj, Bool.true_and]
  rw [show hasKeyB kvs errK = true from h2]
  rfl

/-- Claim C5: if the result of any stage contains the key `error`,
`process_user_input` returns the corresponding
`{"error": ..., "details": <stage result>}` dictionary and invokes no
subsequent stage, as witnessed by the prompt trace. -/
theorem claim_C5_error_short_circuit (u : List Char) (ora : Oracle) :
    (if (isObj (stage1 u ora) && hasKeyJ (stage1 u ora) errK) = true then
       (process_user_input u ⟨ora, []⟩).1 = Except.ok (classifyFailWrap (stage1 u ora))
       ∧ (process_user_input u ⟨ora, []⟩).2.trace = [classify_prompt u]
     else True)
    ∧ (if (proceedsToFeature (stage1 u ora)
            && isObj (stage2 u ora) && hasKeyJ (stage2 u ora) errK) = true then
         (process_user_input u ⟨ora, []⟩).1 = Except.ok (analyzeFailWrap (stage2 u ora))
         ∧ (process_user_input u ⟨ora, []⟩).2.trace
            = [classify_prompt u, analyze_prompt (Json.str u)]
       else True)
    ∧ (if (proceedsToFeature (stage1 u ora) && passesErr (stage2 u ora)
            && isObj (stage3 u ora) && hasKeyJ (stage3 u ora) errK) = true then
         (process_user_input u ⟨ora, []⟩).1 = Except.ok (techFailWrap (stage3 u ora))
         ∧ (process_user_input u ⟨ora, []⟩).2.trace
            = [classify_prompt u, analyze_prompt (Json.str u), tech_prompt (stage2 u ora)]
       else True) := by
  refine ⟨?_, ?_, ?_⟩
  · cases hg : (isObj (stage1 u ora) && hasKeyJ (stage1 u ora) errK)
    · trivial
    · show (process_user_input u ⟨ora, []⟩).1 = Except.ok (classifyFailWrap (stage1 u ora))
          ∧ (process_user_input u ⟨ora, []⟩).2.trace = [classify_prompt u]
      rw [process_run_eq]
      simp only [Bool.and_eq_true] at hg
      obtain ⟨h1, h2⟩ := hg
      obtain ⟨kvs, hc⟩ := isObj_elim h1
      constructor
      · show procResult u ora = Except.ok (classifyFailWrap (stage1 u ora))
        have h2b : hasKeyB kvs errK = true := by rw [hc] at h2; exact h2
        have hin : py_in errK (stage1 u ora) = Except.ok true := by
          rw [hc, py_in_obj, h2b]
        simp only [procResult, hin]
      · show procTrace u ora = [classify_prompt u]
        exact procTrace_noFeature u ora (noFeature_of_err h1 h2)
  · cases hg : (proceedsToFeature (stage1 u ora)
        && isObj (stage2 u ora) && hasKeyJ (stage2 u ora) errK)
    · trivial
    · show (process_user_input u ⟨ora, []⟩).1 = Except.ok (analyzeFailWrap (stage2 u ora))
          ∧ (process_user_input u ⟨ora, []⟩).2.trace
            = [classify_prompt u, analyze_prompt (Json.str u)]
      rw [process_run_eq]
      simp only [Bool.and_eq_true] at hg
      obtain ⟨⟨hpf, h1⟩, h2⟩ := hg
      obtain ⟨hin, hget, hfd⟩ := proceedsToFeature_elim _ hpf
      have hgcF := jsonStrEq_ne _ fdVal gcVal (by decide) hfd
      obtain ⟨akvs, ha⟩ := isObj_elim h1
      have h2b : hasKeyB akvs errK = true := by rw [ha] at h2; exact h2
      have hina : py_in errK (stage2 u ora) = Except.ok true := by
        rw [ha, py_in_obj, h2b]
      constructor
      · show procResult u ora = Except.ok (analyzeFailWrap (stage2 u ora))
        simp only [procResult, hin, hget, hgcF, Bool.false_eq_true, if_false, hfd, if_true, hina]
      · show procTrace u ora = [classify_prompt u, analyze_prompt (Json.str u)]
        refine procTrace_noTech u ora hpf ?_
        simp only [passesErr, hina]
  · cases hg : (proceedsToFeature (stage1 u ora) && passesErr (stage2 u ora)
        && isObj (stage3 u ora) && hasKeyJ (stage3 u ora) errK)
    · trivial
    · show (process_user_input u ⟨ora, []⟩).1 = Except.ok (techFailWrap (stage3 u ora))
          ∧ (process_user_input u ⟨ora, []⟩).2.trace
            = [classify_prompt u, analyze_prompt (Json.str u), tech_prompt (stage2 u ora)]
      rw [process_run_eq]
      simp only [Bool.and_eq_true] at hg
      obtain ⟨⟨⟨hpf, hpe⟩, h1⟩, h2⟩ := hg
      obtain ⟨hin, hget, hfd⟩ := proceedsToFeature_elim _ hpf
      have hgcF := jsonStrEq_ne _ fdVal gcVal (by decide) hfd
      have hina := py_in_of_passesErr _ hpe
      obtain ⟨tkvs, ht⟩ := isObj_elim h1
      have h2b : hasKeyB tkvs errK = true := by rw [ht] at h2; exact h2
      have hint : py_in errK (stage3 u ora) = Except.ok true := by
        rw [ht, py_in_obj, h2b]
      constructor
      · show procResult u ora = Except.ok (techFailWrap (stage3 u ora))
        simp only [procResult, hin, hget, hgcF, Bool.false_eq_true, if_false, hfd, if_true,
          hina, hint]
      · exact procTrace_full u ora hpf hpe

/-- Claim C3 counterexample: the feature-processing workflow completes
without error with a tech-layer result `{"foo": 1}`, whose keys are not
`chunk1` through `chunk8` (the code performs no such validation). -/
theorem claim_C3_counterexample :
    (process_user_input "hi".data
        ⟨fun n _ =>
          if n = 0 then "\x7b\"classification\": \"Feature Description\"\x7d".data
          else if n = 1 then "\x7b\x7d".data
          else "\x7b\"foo\": 1\x7d".data, []⟩).1
      = Except.ok (Json.obj
          [("workflow".data, Json.str "feature_processing".data),
           (classK, Json.str fdVal),
           ("feature_analysis".data, Json.obj []),
           ("tech_layer_result".data, Json.obj [("foo".data, Json.num 1)])])
    ∧ hasKeyJ (Json.obj [("foo".data, Json.num 1)]) "chunk1".data = false :=
  ⟨rfl, rfl⟩

/-- Claim C3 (amended): whenever `process_user_input` completes the
feature-processing workflow without error, its `tech_layer_result` is the
parsed value of the third LLM response, which passes the error check; the
eight-chunk structure is requested by the prompt but never validated. -/
theorem claim_C3_tech_layer_from_third_call (u : List Char) (ora : Oracle) (d : Json)
    (h : (process_user_input u ⟨ora, []⟩).1 = Except.ok d)
    (hw : jGetD d "workflow".data Json.null = Json.str "feature_processing".data) :
    jLookup d "tech_layer_result".data = some (stage3 u ora)
    ∧ passesErr (stage3 u ora) = true := by
  rw [process_run_eq] at h
  replace h : procResult u ora = Except.ok d := h
  rcases procResult_shape u ora d h with h1 | ⟨h1, _⟩ | h1 | h1 | ⟨h1, _, hp⟩ | h1 <;>
    subst h1
  · exact Json.noConfusion hw
  · injection hw with h2
    exact absurd h2 (by decide)
  · exact Json.noConfusion hw
  · exact Json.noConfusion hw
  · exact ⟨rfl, hp⟩
  · exact Json.noConfusion hw

theorem claim_C3_witness :
    ((process_user_input "hi".data
        ⟨fun n _ =>
          if n = 0 then "\x7b\"classification\": \"Feature Description\"\x7d".data
          else "\x7b\x7d".data, []⟩).1
      = Except.ok (Json.obj
          [("workflow".data, Json.str "feature_processing".data),
           (classK, Json.str fdVal),
           ("feature_analysis".data, Json.obj []),
           ("tech_layer_result".data, Json.obj [])]))
    ∧ jGetD (Json.obj
          [("workflow".data, Json.str "feature_processing".data),
           (classK, Json.str fdVal),
           ("feature_analysis".data, Json.obj []),
           ("tech_layer_result".data, Json.obj [])]) "workflow".data Json.null
        = Json.str "feature_processing".data
    ∧ (jLookup (Json.obj
          [("workflow".data, Json.str "feature_processing".data),
           (classK, Json.str fdVal),
           ("feature_analysis".data, Json.obj []),
           ("tech_layer_result".data, Json.obj [])]) "tech_layer_result".data
        = some (stage3 "hi".data
            (fun n _ =>
              if n = 0 then "\x7b\"classification\": \"Feature Description\"\x7d".data
              else "\x7b\x7d".data))
       ∧ passesErr (stage3 "hi".data
            (fun n _ =>
              if n = 0 then "\x7b\"classification\": \"Feature Description\"\x7d".data
              else "\x7b\x7d".data)) = true) :=
  ⟨rfl, rfl,
    claim_C3_tech_layer_from_third_call "hi".data
      (fun n _ =>
        if n = 0 then "\x7b\"classification\": \"Feature Description\"\x7d".data
        else "\x7b\x7d".data)
      (Json.obj
        [("workflow".data, Json.str "feature_processing".data),
         (classK, Json.str fdVal),
         ("feature_analysis".data, Json.obj []),
         ("tech_layer_result".data, Json.obj [])]) rfl rfl⟩

theorem process_state_frame (u : List Char) (ora : Oracle) :
    (process_user_input u ⟨ora, []⟩).2.oracle = ora
    ∧ (process_user_input u ⟨ora, []⟩).2.trace = procTrace u ora := by
  rw [process_run_eq]
  exact ⟨rfl, rfl⟩

theorem cli_loop_files (events : List CliEvent) :
    ∀ (st : LLM) (tc : Nat) (results files : List (List Char × Json)),
      (∀ f ∈ files, (∃ n, f.1 = wrName n) ∨ f.1 = "all_workflow_results.json".data) →
      ∀ f ∈ (cli_loop events st tc results files).2,
        (∃ n, f.1 = wrName n) ∨ f.1 = "all_workflow_results.json".data := by
  induction events with
  | nil =>
    intro st tc results files hfiles f hmem
    exact hfiles f hmem
  | cons ev rest ih =>
    intro st tc results files hfiles f hmem
    simp only [cli_loop] at hmem
    cases hq : quitWords.contains (pyLower (pyStrip ev.raw)) <;>
      simp only [hq, Bool.false_eq_true, if_false, if_true] at hmem
    · by_cases he : pyStrip ev.raw = []
      · rw [if_pos he] at hmem
        exact ih st tc results files hfiles f hmem
      · rw [if_neg he] at hmem
        rcases hr : (process_user_input (pyStrip ev.raw) st).1 with e | result <;>
          simp only [hr] at hmem
        · exact ih _ _ _ _ hfiles f hmem
        · cases hs : yesWords.contains (pyLower (pyStrip ev.save)) <;>
            simp only [hs, Bool.false_eq_true, if_false, if_true] at hmem
          · exact ih _ _ _ _ hfiles f hmem
          · refine ih _ _ _ _ ?_ f hmem
            intro g hg
            rcases List.mem_append.mp hg with hg1 | hg2
            · exact hfiles g hg1
            · rw [List.mem_singleton] at hg2
              subst hg2
              exact Or.inl ⟨tc + 1, rfl⟩
    · exact hfiles f hmem

/-- Claim C7: the only persistence is the CLI loop's flat file writes: every
file a run of the `__main__` loop writes is named `workflow_result_{n}.json`
or `all_workflow_results.json`; and the stage pipeline itself touches no
state beyond its own LLM call log (the oracle is unchanged and the prompt
trace only grows). -/
theorem claim_C7_only_flat_file_writes (events : List CliEvent) (ora : Oracle)
    (f : List Char × Json) (hf : f ∈ cli_run events ora) :
    ((∃ n, f.1 = wrName n) ∨ f.1 = "all_workflow_results.json".data)
    ∧ ∀ (u : List Char) (ora2 : Oracle),
        (process_user_input u ⟨ora2, []⟩).2.oracle = ora2
        ∧ (process_user_input u ⟨ora2, []⟩).2.trace = procTrace u ora2 := by
  refine ⟨?_, fun u ora2 => process_state_frame u ora2⟩
  simp only [cli_run] at hf
  cases hE : (cli_loop events ⟨ora, []⟩ 0 [] []).1.isEmpty <;>
    simp only [hE, Bool.false_eq_true, if_false, if_true] at hf
  · rcases List.mem_append.mp hf with h1 | h2
    · exact cli_loop_files events ⟨ora, []⟩ 0 [] [] (by intro g hg; cases hg) f h1
    · rw [List.mem_singleton] at h2
      subst h2
      exact Or.inr rfl
  · exact cli_loop_files events ⟨ora, []⟩ 0 [] [] (by intro g hg; cases hg) f hf

theorem claim_C7_witness :
    ((wrName 1,
        Json.obj [("workflow".data, Json.str "general_conversation".data),
                  (classK, Json.str gcVal),
                  ("result".data, Json.obj [(classK, Json.str gcVal)])])
      ∈ cli_run [⟨"hi".data, "y".data⟩]
          (fun _ _ => "\x7b\"classification\": \"General Conversation\"\x7d".data))
    ∧ (((∃ n, (wrName 1,
          Json.obj [("workflow".data, Json.str "general_conversation".data),
                    (classK, Json.str gcVal),
                    ("result".data, Json.obj [(classK, Json.str gcVal)])]).1 = wrName n)
        ∨ (wrName 1,
          Json.obj [("workflow".data, Json.str "general_conversation".data),
                    (classK, Json.str gcVal),
                    ("result".data, Json.obj [(classK, Json.str gcVal)])]).1
            = "all_workflow_results.json".data)
      ∧ ∀ (u : List Char) (ora2 : Oracle),
          (process_user_input u ⟨ora2, []⟩).2.oracle = ora2
          ∧ (process_user_input u ⟨ora2, []⟩).2.trace = procTrace u ora2) := by
  have hmem : (wrName 1,
      Json.obj [("workflow".data, Json.str "general_conversation".data),
                (classK, Json.str gcVal),
                ("result".data, Json.obj [(classK, Json.str gcVal)])])
      ∈ cli_run [⟨"hi".data, "y".data⟩]
          (fun _ _ => "\x7b\"classification\": \"General Conversation\"\x7d".data) := by
    rw [show cli_run [⟨"hi".data, "y".data⟩]
          (fun _ _ => "\x7b\"classification\": \"General Conversation\"\x7d".data)
        = [(wrName 1,
            Json.obj [("workflow".data, Json.str "general_conversation".data),
                      (classK, Json.str gcVal),
                      ("result".data, Json.obj [(classK, Json.str gcVal)])]),
           ("all_workflow_results.json".data,
            Json.arr [Json.obj [("input".data, Json.str "hi".data),
              ("result".data,
               Json.obj [("workflow".data, Json.str "general_conversation".data),
                         (classK, Json.str gcVal),
                         ("result".data, Json.obj [(classK, Json.str gcVal)])])]])]
        from rfl]
    exact List.mem_cons_self _ _
  exact ⟨hmem, claim_C7_only_flat_file_writes _ _ _ hmem⟩

theorem natDigitsF_stable : ∀ n f, n < f → natDigitsF f n = natDigitsF (n + 1) n := by
  intro n
  induction n using Nat.strong_induction_on with
  | _ n ih =>
    intro f hf
    cases f with
    | zero => omega
    | succ f2 =>
      simp only [natDigitsF]
      split
      · rfl
      · have hd : n / 10 < n := Nat.div_lt_self (by omega) (by omega)
        rw [ih (n / 10) hd f2 (by omega), ih (n / 10) hd n (by omega)]

theorem natDigits_unfold (n : Nat) :
    natDigits n = if n < 10 then [digitChar n] else natDigits (n / 10) ++ [digitChar (n % 10)] := by
  rw [show natDigits n
        = if n < 10 then [digitChar n] else natDigitsF n (n / 10) ++ [digitChar (n % 10)] from rfl]
  split
  · rfl
  · rw [natDigitsF_stable (n / 10) n (Nat.div_lt_self (by omega) (by omega))]
    rfl


theorem okChar_elim {c : Char} (h : okChar c = true) :
    32 ≤ c.toNat ∧ c.toNat ≤ 126 ∧ c ≠ '"' ∧ c ≠ '\\' ∧ c ≠ '\x60' := by
  simp only [okChar, Bool.and_eq_true, decide_eq_true_eq, Bool.not_eq_true',
    decide_eq_false_iff_not] at h
  exact ⟨h.1.1.1.1, h.1.1.1.2, h.1.1.2, h.1.2, h.2⟩

theorem escChar_ok {c : Char} (h : okChar c = true) : escChar c = [c] := by
  obtain ⟨h1, h2, h3, h4, _⟩ := okChar_elim h
  unfold escChar
  rw [if_neg h3, if_neg h4,
    if_neg (by rintro rfl; exact absurd h1 (by decide)),
    if_neg (by rintro rfl; exact absurd h1 (by decide)),
    if_neg (by rintro rfl; exact absurd h1 (by decide)),
    if_neg (by rintro rfl; exact absurd h1 (by decide)),
    if_neg (by rintro rfl; exact absurd h1 (by decide)),
    if_pos ⟨h1, by omega⟩]

theorem flatten_escChar_ok {s : List Char} (h : s.all okChar = true) :
    (s.map escChar).flatten = s := by
  induction s with
  | nil => rfl
  | cons c s2 ih =>
    simp only [List.all_cons, Bool.and_eq_true] at h
    simp only [List.map_cons, List.flatten_cons, escChar_ok h.1, ih h.2, List.singleton_append]

theorem dumpStr_ok {s : List Char} (h : s.all okChar = true) :
    dumpStr s = '"' :: s ++ ['"'] := by
  unfold dumpStr
  rw [flatten_escChar_ok h]

theorem parseStrF_plain : ∀ (s : List Char) (f : Nat) (rest : List Char),
    s.all okChar = true → s.length < f →
    parseStrF f (s ++ '"' :: rest) = some (s, rest) := by
  intro s
  induction s with
  | nil =>
    intro f rest _ hf
    cases f with
    | zero => omega
    | succ f2 => rfl
  | cons c s2 ih =>
    intro f rest hok hf
    cases f with
    | zero => omega
    | succ f2 =>
      simp only [List.all_cons, Bool.and_eq_true] at hok
      obtain ⟨h1, _, h3, h4, _⟩ := okChar_elim hok.1
      show parseStrF (f2 + 1) (c :: (s2 ++ '"' :: rest)) = some (c :: s2, rest)
      simp only [parseStrF]
      rw [if_neg h3, if_neg h4, if_neg (by omega)]
      rw [ih f2 rest hok.2 (by simpa using Nat.lt_of_succ_lt_succ hf)]
      rfl

theorem parseStr_plain {s : List Char} (rest : List Char) (h : s.all okChar = true) :
    parseStr (s ++ '"' :: rest) = some (s, rest) := by
  unfold parseStr
  exact parseStrF_plain s _ rest h (by simp only [List.length_append, List.length_cons]; omega)

theorem natDigits_all_digits : ∀ n, natDigits n ≠ [] ∧ ∀ c ∈ natDigits n, isDigitC c = true := by
  intro n
  induction n using Nat.strong_induction_on with
  | _ n ih =>
    rw [natDigits_unfold]
    split
    · refine ⟨by simp, ?_⟩
      intro c hc
      rw [List.mem_singleton] at hc
      subst hc
      rename_i hlt
      interval_cases n <;> decide
    · rename_i hge
      have hd : n / 10 < n := Nat.div_lt_self (by omega) (by omega)
      refine ⟨by simp [(ih (n / 10) hd).1], ?_⟩
      intro c hc
      rcases List.mem_append.mp hc with h1 | h2
      · exact (ih (n / 10) hd).2 c h1
      · rw [List.mem_singleton] at h2
        subst h2
        have : n % 10 < 10 := Nat.mod_lt _ (by omega)
        interval_cases hm : n % 10 <;> decide

theorem natDigits_head_pos : ∀ n, 1 ≤ n →
    ∃ d ds, natDigits n = d :: ds ∧ isDigitC d = true ∧ d ≠ '0' := by
  intro n
  induction n using Nat.strong_induction_on with
  | _ n ih =>
    intro hpos
    rw [natDigits_unfold]
    split
    · rename_i hlt
      refine ⟨digitChar n, [], rfl, ?_, ?_⟩ <;> (interval_cases n <;> decide)
    · rename_i hge
      have hd : n / 10 < n := Nat.div_lt_self (by omega) (by omega)
      obtain ⟨d, ds, heq, hdig, hne⟩ := ih (n / 10) hd (by omega)
      exact ⟨d, ds ++ [digitChar (n % 10)], by rw [heq]; rfl, hdig, hne⟩

theorem readDigits_split : ∀ (ds rest : List Char),
    (∀ c ∈ ds, isDigitC c = true) →
    (match rest with | [] => True | c :: _ => isDigitC c = false) →
    readDigits (ds ++ rest) = (ds, rest) := by
  intro ds
  induction ds with
  | nil =>
    intro rest _ hrest
    cases rest with
    | nil => rfl
    | cons c r =>
      simp only [List.nil_append, readDigits]
      rw [if_neg (by simp [hrest])]
  | cons d ds2 ih =>
    intro rest hds hrest
    have hd : isDigitC d = true := hds d (List.mem_cons_self d ds2)
    simp only [List.cons_append, readDigits]
    rw [if_pos hd, show ds2.append rest = ds2 ++ rest from rfl,
      ih rest (fun c hc => hds c (List.mem_cons_of_mem d hc)) hrest]

theorem digitsToNat_append_digit (ds : List Char) (d : Char) :
    digitsToNat (ds ++ [d]) = digitsToNat ds * 10 + (d.toNat - 48) := by
  unfold digitsToNat
  rw [List.foldl_append]
  rfl

theorem digitsToNat_natDigits : ∀ n, digitsToNat (natDigits n) = n := by
  intro n
  induction n using Nat.strong_induction_on with
  | _ n ih =>
    rw [natDigits_unfold]
    split
    · rename_i hlt
      interval_cases n <;> decide
    · rename_i hge
      have hd : n / 10 < n := Nat.div_lt_self (by omega) (by omega)
      rw [digitsToNat_append_digit, ih (n / 10) hd]
      have hm : n % 10 < 10 := Nat.mod_lt _ (by omega)
      have : (digitChar (n % 10)).toNat - 48 = n % 10 := by
        interval_cases hmm : n % 10 <;> decide
      rw [this]
      omega

theorem numBad_of_safe {rest : List Char} (h : numSafeB rest = true) : numBad rest = false := by
  cases rest with
  | nil => rfl
  | cons c r =>
    simp only [numSafeB, Bool.and_eq_true, Bool.not_eq_true', decide_eq_false_iff_not] at h
    simp only [numBad, Bool.or_eq_false_iff, decide_eq_false_iff_not]
    exact ⟨⟨h.1.1.2, h.1.2⟩, h.2⟩

theorem headNotDigit_of_safe : ∀ {rest : List Char}, numSafeB rest = true →
    (match rest with | [] => True | c :: _ => isDigitC c = false)
  | [], _ => trivial
  | c :: r, h => by
    simp only [numSafeB, Bool.and_eq_true, Bool.not_eq_true'] at h
    exact h.1.1.1

theorem parseNum_natDigits (n : Nat) (rest : List Char) (hs : numSafeB rest = true) :
    parseNum (natDigits n ++ rest) = some (n, rest) := by
  by_cases h0 : n = 0
  · subst h0
    show parseNum ('0' :: rest) = some (0, rest)
    simp only [parseNum]
    rw [if_pos trivial, if_neg (by rw [numBad_of_safe hs]; exact Bool.false_ne_true)]
  · obtain ⟨d, ds, heq, hdig, hne0⟩ := natDigits_head_pos n (by omega)
    have hall := (natDigits_all_digits n).2
    rw [heq]
    show parseNum (d :: (ds ++ rest)) = some (n, rest)
    simp only [parseNum]
    rw [if_neg hne0, if_pos hdig]
    have hspl : readDigits ((d :: ds) ++ rest) = (d :: ds, rest) := by
      refine readDigits_split (d :: ds) rest ?_ (headNotDigit_of_safe hs)
      intro c hc
      exact hall c (heq ▸ hc)
    rw [show d :: (ds ++ rest) = (d :: ds) ++ rest from rfl, hspl]
    rw [if_neg (by rw [numBad_of_safe hs]; exact Bool.false_ne_true)]
    have : digitsToNat (d :: ds) = n := by
      rw [← heq]
      exact digitsToNat_natDigits n
    rw [this]

theorem digit_ne_lits {c : Char} (h : isDigitC c = true) :
    c ≠ '"' ∧ c ≠ '{' ∧ c ≠ '[' ∧ c ≠ 't' ∧ c ≠ 'f' ∧ c ≠ 'n' ∧ c ≠ '-' :=
  ⟨fun he => by subst he; exact absurd h (by decide),
   fun he => by subst he; exact absurd h (by decide),
   fun he => by subst he; exact absurd h (by decide),
   fun he => by subst he; exact absurd h (by decide),
   fun he => by subst he; exact absurd h (by decide),
   fun he => by subst he; exact absurd h (by decide),
   fun he => by subst he; exact absurd h (by decide)⟩

theorem parseVal_intDump (n : Int) (f : Nat) (rest : List Char) (hs : numSafeB rest = true) :
    parseVal (f + 1) (intDump n ++ rest) = some (Json.num n, rest) := by
  cases n with
  | ofNat m =>
    show parseVal (f + 1) (natDigits m ++ rest) = some (Json.num (Int.ofNat m), rest)
    obtain ⟨d, ds, heq⟩ := List.exists_cons_of_ne_nil (natDigits_all_digits m).1
    have hd : isDigitC d = true := (natDigits_all_digits m).2 d (by rw [heq]; exact List.mem_cons_self _ _)
    obtain ⟨q1, q2, q3, q4, q5, q6, q7⟩ := digit_ne_lits hd
    rw [heq]
    show parseVal (f + 1) (d :: (ds ++ rest)) = some (Json.num (Int.ofNat m), rest)
    simp only [parseVal]
    rw [if_neg q1, if_neg q2, if_neg q3, if_neg q4, if_neg q5, if_neg q6, if_neg q7, if_pos hd]
    rw [show d :: (ds ++ rest) = natDigits m ++ rest from by rw [heq]; rfl]
    rw [parseNum_natDigits m rest hs]
    rfl
  | negSucc m =>
    show parseVal (f + 1) ('-' :: (natDigits (m + 1) ++ rest)) = some (Json.num (Int.negSucc m), rest)
    simp only [parseVal]
    rw [if_neg (by decide), if_neg (by decide), if_neg (by decide), if_neg (by decide),
      if_neg (by decide), if_neg (by decide), if_pos trivial]
    rw [parseNum_natDigits (m + 1) rest hs]
    have h2 : -((m + 1 : Nat) : Int) = Int.negSucc m := by
      rw [Int.negSucc_eq]
      push_cast
      ring
    show some (Json.num (-((m + 1 : Nat) : Int)), rest) = some (Json.num (Int.negSucc m), rest)
    rw [h2]

theorem obind_some {α β : Type} (a : α) (g : α → Option β) : (some a).bind g = g a := rfl

theorem digit_not_ws {c : Char} (h : isDigitC c = true) : isJsonWs c = false := by
  by_contra hw
  rw [Bool.not_eq_false] at hw
  simp only [isJsonWs, Bool.or_eq_true, decide_eq_true_eq] at hw
  rcases hw with ((rfl | rfl) | rfl) | rfl <;> exact absurd h (by decide)

theorem digit_ne_close {c : Char} (h : isDigitC c = true) : c ≠ ']' ∧ c ≠ '}' :=
  ⟨fun he => by subst he; exact absurd h (by decide),
   fun he => by subst he; exact absurd h (by decide)⟩

theorem fuelNeedVal_pos (o : Json) : 1 ≤ fuelNeedVal o := by
  cases o with
  | null => exact Nat.le_refl 1
  | bool b => exact Nat.le_refl 1
  | num n => exact Nat.le_refl 1
  | str s => exact Nat.le_refl 1
  | arr xs =>
    cases xs with
    | nil => exact Nat.le_refl 1
    | cons x xs2 => exact Nat.le_add_right 1 _
  | obj kvs =>
    cases kvs with
    | nil => exact Nat.le_refl 1
    | cons kv kvs2 => exact Nat.le_add_right 1 _

theorem fuelNeedElems_pos (x : Json) (xs : List Json) : 1 ≤ fuelNeedElems (x :: xs) := by
  cases xs with
  | nil => exact Nat.le_add_right 1 _
  | cons y ys =>
    show 1 ≤ 1 + fuelNeedVal x + fuelNeedElems (y :: ys)
    omega

theorem fuelNeedMembers_pos (kv : List Char × Json) (ms : List (List Char × Json)) :
    1 ≤ fuelNeedMembers (kv :: ms) := by
  cases ms with
  | nil => exact Nat.le_add_right 1 _
  | cons m ms2 =>
    show 1 ≤ 1 + fuelNeedVal kv.2 + fuelNeedMembers (m :: ms2)
    omega

theorem dump_head_shape (o : Json) :
    ∃ c cs, dumpVal o = c :: cs ∧ isJsonWs c = false ∧ c ≠ ']' ∧ c ≠ '}' := by
  cases o with
  | null => exact ⟨'n', ['u', 'l', 'l'], rfl, rfl, by decide, by decide⟩
  | bool b =>
    cases b with
    | true => exact ⟨'t', ['r', 'u', 'e'], rfl, rfl, by decide, by decide⟩
    | false => exact ⟨'f', ['a', 'l', 's', 'e'], rfl, rfl, by decide, by decide⟩
  | num n =>
    cases n with
    | ofNat m =>
      obtain ⟨d, ds, heq⟩ := List.exists_cons_of_ne_nil (natDigits_all_digits m).1
      have hd : isDigitC d = true :=
        (natDigits_all_digits m).2 d (by rw [heq]; exact List.mem_cons_self _ _)
      exact ⟨d, ds, heq, digit_not_ws hd, (digit_ne_close hd).1, (digit_ne_close hd).2⟩
    | negSucc m => exact ⟨'-', natDigits (m + 1), rfl, rfl, by decide, by decide⟩
  | str s => exact ⟨'"', (s.map escChar).flatten ++ ['"'], rfl, rfl, by decide, by decide⟩
  | arr xs => exact ⟨'[', dumpElems xs ++ [']'], rfl, rfl, by decide, by decide⟩
  | obj kvs => exact ⟨'{', dumpMembers kvs ++ ['}'], rfl, rfl, by decide, by decide⟩

theorem dumpElems_cons_decomp (x : Json) (xs : List Json) :
    ∃ t, dumpElems (x :: xs) = dumpVal x ++ t := by
  cases xs with
  | nil => exact ⟨[], (List.append_nil _).symm⟩
  | cons y ys =>
    refine ⟨[',', ' '] ++ dumpElems (y :: ys), ?_⟩
    show dumpVal x ++ [',', ' '] ++ dumpElems (y :: ys) = _
    exact List.append_assoc _ _ _

theorem dumpMembers_head (kv : List Char × Json) (ms : List (List Char × Json)) :
    ∃ t, dumpMembers (kv :: ms) = '"' :: t := by
  cases ms with
  | nil => exact ⟨_, rfl⟩
  | cons m ms2 => exact ⟨_, rfl⟩

theorem skipWs_cons_nws {c : Char} (h : isJsonWs c = false) (l : List Char) :
    skipWs (c :: l) = c :: l := by
  unfold skipWs
  rw [List.dropWhile_cons, if_neg (by simp [h])]

theorem skipWs_cons_sp (l : List Char) : skipWs (' ' :: l) = skipWs l := by
  unfold skipWs
  rw [List.dropWhile_cons, if_pos (by decide)]

theorem skipWs_dumpVal (o : Json) (t : List Char) :
    skipWs (dumpVal o ++ t) = dumpVal o ++ t := by
  obtain ⟨c, cs, hdc, hnw, _, _⟩ := dump_head_shape o
  rw [hdc]
  exact skipWs_cons_nws hnw _

theorem skipWs_dumpElems (x : Json) (xs : List Json) (t : List Char) :
    skipWs (dumpElems (x :: xs) ++ t) = dumpElems (x :: xs) ++ t := by
  obtain ⟨t2, ht⟩ := dumpElems_cons_decomp x xs
  rw [ht, List.append_assoc]
  exact skipWs_dumpVal x (t2 ++ t)

theorem skipWs_dumpMembers (m : List Char × Json) (ms : List (List Char × Json)) (t : List Char) :
    skipWs (dumpMembers (m :: ms) ++ t) = dumpMembers (m :: ms) ++ t := by
  obtain ⟨t2, ht⟩ := dumpMembers_head m ms
  rw [ht]
  exact skipWs_cons_nws (by decide) (t2 ++ t)

theorem parseVal_arr_go (f : Nat) (x : Json) (xs : List Json) (t : List Char) :
    parseVal (f + 1) ('[' :: (dumpElems (x :: xs) ++ t)) =
      (parseElems f (dumpElems (x :: xs) ++ t)).map fun p => (Json.arr p.1, p.2) := by
  obtain ⟨t2, ht⟩ := dumpElems_cons_decomp x xs
  obtain ⟨c, cs, hdc, hnw, hne1, hne2⟩ := dump_head_shape x
  rw [ht, hdc]
  have hsk : skipWs (((c :: cs) ++ t2) ++ t) = c :: ((cs ++ t2) ++ t) :=
    skipWs_cons_nws hnw _
  show (match skipWs (((c :: cs) ++ t2) ++ t) with
    | [] => (parseElems f []).map fun (p : List Json × List Char) => (Json.arr p.1, p.2)
    | c2 :: r2 =>
      if c2 = ']' then some (Json.arr [], r2)
      else (parseElems f (c2 :: r2)).map fun (p : List Json × List Char) =>
        (Json.arr p.1, p.2)) = _
  rw [hsk]
  show (if c = ']' then some (Json.arr [], (cs ++ t2) ++ t)
    else (parseElems f (c :: ((cs ++ t2) ++ t))).map fun (p : List Json × List Char) =>
      (Json.arr p.1, p.2)) = _
  rw [if_neg hne1]
  rfl

theorem parseVal_obj_go (f : Nat) (kv : List Char × Json) (kvs : List (List Char × Json))
    (t : List Char) :
    parseVal (f + 1) ('{' :: (dumpMembers (kv :: kvs) ++ t)) =
      (parseMembers f (dumpMembers (kv :: kvs) ++ t)).map fun p => (Json.obj p.1, p.2) := by
  obtain ⟨t2, ht⟩ := dumpMembers_head kv kvs
  rw [ht]
  rfl

theorem parseMembers_quote (f : Nat) (rest : List Char) :
    parseMembers (f + 1) ('"' :: rest) =
      (parseStr rest).bind fun kp =>
        match skipWs kp.2 with
        | [] => none
        | c2 :: r2 =>
          if c2 = ':' then
            (parseVal f (skipWs r2)).bind fun vp =>
              match skipWs vp.2 with
              | [] => none
              | c3 :: r3 =>
                if c3 = ',' then
                  (parseMembers f (skipWs r3)).map fun q => ((kp.1, vp.1) :: q.1, q.2)
                else if c3 = '}' then some ([(kp.1, vp.1)], r3)
                else none
          else none := rfl

theorem parseMembers_step_last (f : Nat) (k : List Char) (v : Json) (rest : List Char)
    (hk : k.all okChar = true)
    (hv : parseVal f (dumpVal v ++ '}' :: rest) = some (v, '}' :: rest)) :
    parseMembers (f + 1) ('"' :: (k ++ '"' :: ':' :: ' ' :: (dumpVal v ++ '}' :: rest))) =
      some ([(k, v)], rest) := by
  rw [parseMembers_quote, parseStr_plain (':' :: ' ' :: (dumpVal v ++ '}' :: rest)) hk,
    obind_some]
  show (parseVal f (skipWs (' ' :: (dumpVal v ++ '}' :: rest)))).bind _ = _
  rw [skipWs_cons_sp, skipWs_dumpVal v ('}' :: rest), hv, obind_some]
  rfl

theorem parseMembers_step_cons (f : Nat) (k : List Char) (v : Json) (X : List Char)
    (hk : k.all okChar = true)
    (hv : parseVal f (dumpVal v ++ ',' :: ' ' :: X) = some (v, ',' :: ' ' :: X)) :
    parseMembers (f + 1) ('"' :: (k ++ '"' :: ':' :: ' ' :: (dumpVal v ++ ',' :: ' ' :: X))) =
      (parseMembers f (skipWs X)).map fun q => ((k, v) :: q.1, q.2) := by
  rw [parseMembers_quote, parseStr_plain (':' :: ' ' :: (dumpVal v ++ ',' :: ' ' :: X)) hk,
    obind_some]
  show (parseVal f (skipWs (' ' :: (dumpVal v ++ ',' :: ' ' :: X)))).bind _ = _
  rw [skipWs_cons_sp, skipWs_dumpVal v (',' :: ' ' :: X), hv, obind_some]
  rfl

theorem parse_dump_roundtrip : ∀ f : Nat,
    (∀ o rest, jsonOkVal o = true → fuelNeedVal o ≤ f → numSafeB rest = true →
      parseVal f (dumpVal o ++ rest) = some (o, rest)) ∧
    (∀ xs rest, jsonOkElems xs = true → fuelNeedElems xs ≤ f → xs ≠ [] →
      numSafeB rest = true →
      parseElems f (dumpElems xs ++ ']' :: rest) = some (xs, rest)) ∧
    (∀ kvs rest, jsonOkMembers kvs = true → fuelNeedMembers kvs ≤ f → kvs ≠ [] →
      numSafeB rest = true →
      parseMembers f (dumpMembers kvs ++ '}' :: rest) = some (kvs, rest)) := by
  intro f
  induction f with
  | zero =>
    refine ⟨?_, ?_, ?_⟩
    · intro o rest _ hf _
      exact absurd hf (by have h1 := fuelNeedVal_pos o; omega)
    · intro xs rest _ hf hne _
      cases xs with
      | nil => exact absurd rfl hne
      | cons x xs2 => exact absurd hf (by have h1 := fuelNeedElems_pos x xs2; omega)
    · intro kvs rest _ hf hne _
      cases kvs with
      | nil => exact absurd rfl hne
      | cons kv kvs2 => exact absurd hf (by have h1 := fuelNeedMembers_pos kv kvs2; omega)
  | succ f ih =>
    obtain ⟨ihV, ihE, ihM⟩ := ih
    refine ⟨?_, ?_, ?_⟩
    · intro o rest hok hf hrest
      cases o with
      | null => rfl
      | bool b => cases b <;> rfl
      | num n => exact parseVal_intDump n f rest hrest
      | str s =>
        have hok2 : s.all okChar = true := hok
        rw [show dumpVal (Json.str s) ++ rest = '"' :: (s ++ '"' :: rest) from by
          rw [show dumpVal (Json.str s) = dumpStr s from rfl, dumpStr_ok hok2]
          simp]
        show (parseStr (s ++ '"' :: rest)).map (fun p => (Json.str p.1, p.2)) =
          some (Json.str s, rest)
        rw [parseStr_plain rest hok2]
        rfl
      | arr xs =>
        cases xs with
        | nil => rfl
        | cons x xs2 =>
          rw [show dumpVal (Json.arr (x :: xs2)) ++ rest
              = '[' :: (dumpElems (x :: xs2) ++ ']' :: rest) from by
            show ('[' :: dumpElems (x :: xs2) ++ [']']) ++ rest = _
            simp]
          rw [parseVal_arr_go f x xs2 (']' :: rest)]
          have hfe : fuelNeedElems (x :: xs2) ≤ f := by
            have h1 : fuelNeedVal (Json.arr (x :: xs2)) = 1 + fuelNeedElems (x :: xs2) := rfl
            omega
          rw [ihE (x :: xs2) rest hok hfe (by simp) hrest]
          rfl
      | obj kvs =>
        cases kvs with
        | nil => rfl
        | cons kv kvs2 =>
          rw [show dumpVal (Json.obj (kv :: kvs2)) ++ rest
              = '{' :: (dumpMembers (kv :: kvs2) ++ '}' :: rest) from by
            show ('{' :: dumpMembers (kv :: kvs2) ++ ['}']) ++ rest = _
            simp]
          rw [parseVal_obj_go f kv kvs2 ('}' :: rest)]
          have hfm : fuelNeedMembers (kv :: kvs2) ≤ f := by
            have h1 : fuelNeedVal (Json.obj (kv :: kvs2)) = 1 + fuelNeedMembers (kv :: kvs2) :=
              rfl
            omega
          rw [ihM (kv :: kvs2) rest hok hfm (by simp) hrest]
          rfl
    · intro xs rest hok hf hne hrest
      cases xs with
      | nil => exact absurd rfl hne
      | cons x xs2 =>
        cases xs2 with
        | nil =>
          have hokx : jsonOkVal x = true := by
            have h2 : (jsonOkVal x && jsonOkElems []) = true := hok
            rw [Bool.and_eq_true] at h2
            exact h2.1
          have hfx : fuelNeedVal x ≤ f := by
            have h1 : fuelNeedElems [x] = 1 + fuelNeedVal x := rfl
            omega
          show (parseVal f (dumpVal x ++ ']' :: rest)).bind _ = _
          rw [ihV x (']' :: rest) hokx hfx rfl, obind_some]
          rfl
        | cons y ys =>
          have hok2 : (jsonOkVal x && jsonOkElems (y :: ys)) = true := hok
          rw [Bool.and_eq_true] at hok2
          have h1 : fuelNeedElems (x :: y :: ys)
              = 1 + fuelNeedVal x + fuelNeedElems (y :: ys) := rfl
          have hfx : fuelNeedVal x ≤ f := by omega
          have hfe : fuelNeedElems (y :: ys) ≤ f := by omega
          rw [show dumpElems (x :: y :: ys) ++ ']' :: rest
              = dumpVal x ++ (',' :: ' ' :: (dumpElems (y :: ys) ++ ']' :: rest)) from by
            show (dumpVal x ++ [',', ' '] ++ dumpElems (y :: ys)) ++ ']' :: rest = _
            simp]
          show (parseVal f
            (dumpVal x ++ (',' :: ' ' :: (dumpElems (y :: ys) ++ ']' :: rest)))).bind _ = _
          rw [ihV x (',' :: ' ' :: (dumpElems (y :: ys) ++ ']' :: rest)) hok2.1 hfx rfl,
            obind_some]
          show (parseElems f (skipWs (' ' :: (dumpElems (y :: ys) ++ ']' :: rest)))).map _ = _
          rw [skipWs_cons_sp, skipWs_dumpElems y ys (']' :: rest)]
          rw [ihE (y :: ys) rest hok2.2 hfe (by simp) hrest]
          rfl
    · intro kvs rest hok hf hne hrest
      cases kvs with
      | nil => exact absurd rfl hne
      | cons kv kvs2 =>
        have hok2 : (kv.1.all okChar && jsonOkVal kv.2 && jsonOkMembers kvs2) = true := hok
        rw [Bool.and_eq_true, Bool.and_eq_true] at hok2
        cases kvs2 with
        | nil =>
          have hfv : fuelNeedVal kv.2 ≤ f := by
            have h1 : fuelNeedMembers [kv] = 1 + fuelNeedVal kv.2 := rfl
            omega
          rw [show dumpMembers [kv] ++ '}' :: rest
              = '"' :: (kv.1 ++ '"' :: ':' :: ' ' :: (dumpVal kv.2 ++ '}' :: rest)) from by
            rw [show dumpMembers [kv] = dumpStr kv.1 ++ [':', ' '] ++ dumpVal kv.2 from rfl,
              dumpStr_ok hok2.1.1]
            simp]
          exact parseMembers_step_last f kv.1 kv.2 rest hok2.1.1
            (ihV kv.2 ('}' :: rest) hok2.1.2 hfv rfl)
        | cons m ms =>
          have h1 : fuelNeedMembers (kv :: m :: ms)
              = 1 + fuelNeedVal kv.2 + fuelNeedMembers (m :: ms) := rfl
          have hfv : fuelNeedVal kv.2 ≤ f := by omega
          have hfm : fuelNeedMembers (m :: ms) ≤ f := by omega
          rw [show dumpMembers (kv :: m :: ms) ++ '}' :: rest
              = '"' :: (kv.1 ++ '"' :: ':' :: ' ' ::
                (dumpVal kv.2 ++ ',' :: ' ' :: (dumpMembers (m :: ms) ++ '}' :: rest))) from by
            rw [show dumpMembers (kv :: m :: ms)
                = dumpStr kv.1 ++ [':', ' '] ++ dumpVal kv.2 ++ [',', ' ']
                  ++ dumpMembers (m :: ms) from rfl,
              dumpStr_ok hok2.1.1]
            simp]
          rw [parseMembers_step_cons f kv.1 kv.2 (dumpMembers (m :: ms) ++ '}' :: rest)
            hok2.1.1
            (ihV kv.2 (',' :: ' ' :: (dumpMembers (m :: ms) ++ '}' :: rest)) hok2.1.2 hfv rfl)]
          rw [skipWs_dumpMembers m ms ('}' :: rest)]
          rw [ihM (m :: ms) rest hok2.2 hfm (by simp) hrest]
          rfl

theorem fuel_bound : ∀ N : Nat,
    (∀ o, fuelNeedVal o ≤ N → fuelNeedVal o ≤ (dumpVal o).length + 1) ∧
    (∀ x xs, fuelNeedElems (x :: xs) ≤ N →
      fuelNeedElems (x :: xs) ≤ (dumpElems (x :: xs)).length + 2) ∧
    (∀ kv ms, fuelNeedMembers (kv :: ms) ≤ N →
      fuelNeedMembers (kv :: ms) ≤ (dumpMembers (kv :: ms)).length + 2) := by
  intro N
  induction N with
  | zero =>
    refine ⟨?_, ?_, ?_⟩
    · intro o h
      exact absurd h (by have h1 := fuelNeedVal_pos o; omega)
    · intro x xs h
      exact absurd h (by have h1 := fuelNeedElems_pos x xs; omega)
    · intro kv ms h
      exact absurd h (by have h1 := fuelNeedMembers_pos kv ms; omega)
  | succ N ih =>
    obtain ⟨ihV, ihE, ihM⟩ := ih
    refine ⟨?_, ?_, ?_⟩
    · intro o h
      cases o with
      | null => decide
      | bool b => cases b <;> decide
      | num n => exact Nat.le_add_left 1 _
      | str s => exact Nat.le_add_left 1 _
      | arr xs =>
        cases xs with
        | nil => decide
        | cons x xs2 =>
          have h1 : fuelNeedVal (Json.arr (x :: xs2)) = 1 + fuelNeedElems (x :: xs2) := rfl
          have h2 := ihE x xs2 (by omega)
          have h3 : (dumpVal (Json.arr (x :: xs2))).length
              = (dumpElems (x :: xs2)).length + 2 := by
            rw [show dumpVal (Json.arr (x :: xs2))
                = '[' :: dumpElems (x :: xs2) ++ [']'] from rfl]
            simp only [List.length_append, List.length_cons, List.length_nil]
          omega
      | obj kvs =>
        cases kvs with
        | nil => decide
        | cons kv kvs2 =>
          have h1 : fuelNeedVal (Json.obj (kv :: kvs2)) = 1 + fuelNeedMembers (kv :: kvs2) := rfl
          have h2 := ihM kv kvs2 (by omega)
          have h3 : (dumpVal (Json.obj (kv :: kvs2))).length
              = (dumpMembers (kv :: kvs2)).length + 2 := by
            rw [show dumpVal (Json.obj (kv :: kvs2))
                = '{' :: dumpMembers (kv :: kvs2) ++ ['}'] from rfl]
            simp only [List.length_append, List.length_cons, List.length_nil]
          omega
    · intro x xs h
      cases xs with
      | nil =>
        have h1 : fuelNeedElems [x] = 1 + fuelNeedVal x := rfl
        have h2 := ihV x (by omega)
        have h3 : dumpElems [x] = dumpVal x := rfl
        rw [h1, h3]
        omega
      | cons y ys =>
        have h1 : fuelNeedElems (x :: y :: ys)
            = 1 + fuelNeedVal x + fuelNeedElems (y :: ys) := rfl
        have h2 := ihV x (by omega)
        have h4 := ihE y ys (by omega)
        have h3 : (dumpElems (x :: y :: ys)).length
            = (dumpVal x).length + 2 + (dumpElems (y :: ys)).length := by
          rw [show dumpElems (x :: y :: ys)
              = dumpVal x ++ [',', ' '] ++ dumpElems (y :: ys) from rfl]
          simp only [List.length_append, List.length_cons, List.length_nil]
        omega
    · intro kv ms h
      cases ms with
      | nil =>
        have h1 : fuelNeedMembers [kv] = 1 + fuelNeedVal kv.2 := rfl
        have h2 := ihV kv.2 (by omega)
        have h3 : (dumpMembers [kv]).length
            = (dumpStr kv.1).length + 2 + (dumpVal kv.2).length := by
          rw [show dumpMembers [kv] = dumpStr kv.1 ++ [':', ' '] ++ dumpVal kv.2 from rfl]
          simp only [List.length_append, List.length_cons, List.length_nil]
        omega
      | cons m ms2 =>
        have h1 : fuelNeedMembers (kv :: m :: ms2)
            = 1 + fuelNeedVal kv.2 + fuelNeedMembers (m :: ms2) := rfl
        have h2 := ihV kv.2 (by omega)
        have h4 := ihM m ms2 (by omega)
        have h3 : (dumpMembers (kv :: m :: ms2)).length
            = (dumpStr kv.1).length + 4 + (dumpVal kv.2).length
              + (dumpMembers (m :: ms2)).length := by
          rw [show dumpMembers (kv :: m :: ms2)
              = dumpStr kv.1 ++ [':', ' '] ++ dumpVal kv.2 ++ [',', ' ']
                ++ dumpMembers (m :: ms2) from rfl]
          simp only [List.length_append, List.length_cons, List.length_nil]
          omega
        omega

theorem skipWs_dump (o : Json) : skipWs (dumpVal o) = dumpVal o := by
  obtain ⟨c, cs, hdc, hnw, _, _⟩ := dump_head_shape o
  rw [hdc]
  exact skipWs_cons_nws hnw cs

theorem json_loads_dump {o : Json} (hok : jsonOkVal o = true) :
    json_loads (dumpVal o) = some o := by
  unfold json_loads
  rw [skipWs_dump o]
  have hb : fuelNeedVal o ≤ (dumpVal o).length + 1 :=
    (fuel_bound (fuelNeedVal o)).1 o (Nat.le_refl _)
  have hp : parseVal ((dumpVal o).length + 1) (dumpVal o ++ []) = some (o, []) :=
    (parse_dump_roundtrip ((dumpVal o).length + 1)).1 o [] hok hb rfl
  rw [List.append_nil] at hp
  rw [hp]
  rfl

theorem dumpStr_charset {k : List Char} (hk : k.all okChar = true) :
    ∀ c ∈ dumpStr k, c ≠ '\\' ∧ c ≠ '\x60' := by
  intro c hc
  rw [dumpStr_ok hk] at hc
  rcases List.mem_cons.mp hc with rfl | h2
  · exact ⟨by decide, by decide⟩
  · rcases List.mem_append.mp h2 with h3 | h3
    · have hok2 : okChar c = true := by
        rw [List.all_eq_true] at hk
        exact hk c h3
      obtain ⟨_, _, _, h4, h5⟩ := okChar_elim hok2
      exact ⟨h4, h5⟩
    · rw [List.mem_singleton] at h3
      subst h3
      exact ⟨by decide, by decide⟩

theorem dump_charset : ∀ N : Nat,
    (∀ o, fuelNeedVal o ≤ N → jsonOkVal o = true →
      ∀ c ∈ dumpVal o, c ≠ '\\' ∧ c ≠ '\x60') ∧
    (∀ x xs, fuelNeedElems (x :: xs) ≤ N → jsonOkElems (x :: xs) = true →
      ∀ c ∈ dumpElems (x :: xs), c ≠ '\\' ∧ c ≠ '\x60') ∧
    (∀ kv ms, fuelNeedMembers (kv :: ms) ≤ N → jsonOkMembers (kv :: ms) = true →
      ∀ c ∈ dumpMembers (kv :: ms), c ≠ '\\' ∧ c ≠ '\x60') := by
  intro N
  induction N with
  | zero =>
    refine ⟨?_, ?_, ?_⟩
    · intro o h
      exact absurd h (by have h1 := fuelNeedVal_pos o; omega)
    · intro x xs h
      exact absurd h (by have h1 := fuelNeedElems_pos x xs; omega)
    · intro kv ms h
      exact absurd h (by have h1 := fuelNeedMembers_pos kv ms; omega)
  | succ N ih =>
    obtain ⟨ihV, ihE, ihM⟩ := ih
    refine ⟨?_, ?_, ?_⟩
    · intro o h hok c hc
      cases o with
      | null =>
        rw [show dumpVal Json.null = ['n', 'u', 'l', 'l'] from rfl] at hc
        fin_cases hc <;> exact ⟨by decide, by decide⟩
      | bool b =>
        cases b with
        | true =>
          rw [show dumpVal (Json.bool true) = ['t', 'r', 'u', 'e'] from rfl] at hc
          fin_cases hc <;> exact ⟨by decide, by decide⟩
        | false =>
          rw [show dumpVal (Json.bool false) = ['f', 'a', 'l', 's', 'e'] from rfl] at hc
          fin_cases hc <;> exact ⟨by decide, by decide⟩
      | num n =>
        cases n with
        | ofNat m =>
          have hc2 : c ∈ natDigits m := hc
          have hd := (natDigits_all_digits m).2 c hc2
          exact ⟨fun he => by subst he; exact absurd hd (by decide),
            fun he => by subst he; exact absurd hd (by decide)⟩
        | negSucc m =>
          have hc2 : c ∈ '-' :: natDigits (m + 1) := hc
          rcases List.mem_cons.mp hc2 with rfl | h2
          · exact ⟨by decide, by decide⟩
          · have hd := (natDigits_all_digits (m + 1)).2 c h2
            exact ⟨fun he => by subst he; exact absurd hd (by decide),
              fun he => by subst he; exact absurd hd (by decide)⟩
      | str s => exact dumpStr_charset hok c hc
      | arr xs =>
        cases xs with
        | nil =>
          rw [show dumpVal (Json.arr []) = ['[', ']'] from rfl] at hc
          fin_cases hc <;> exact ⟨by decide, by decide⟩
        | cons x xs2 =>
          have h1 : fuelNeedVal (Json.arr (x :: xs2)) = 1 + fuelNeedElems (x :: xs2) := rfl
          have hc2 : c ∈ '[' :: (dumpElems (x :: xs2) ++ [']']) := hc
          rcases List.mem_cons.mp hc2 with rfl | h2
          · exact ⟨by decide, by decide⟩
          · rcases List.mem_append.mp h2 with h3 | h3
            · exact ihE x xs2 (by omega) hok c h3
            · rw [List.mem_singleton] at h3
              subst h3
              exact ⟨by decide, by decide⟩
      | obj kvs =>
        cases kvs with
        | nil =>
          rw [show dumpVal (Json.obj []) = ['\x7b', '\x7d'] from rfl] at hc
          fin_cases hc <;> exact ⟨by decide, by decide⟩
        | cons kv kvs2 =>
          have h1 : fuelNeedVal (Json.obj (kv :: kvs2)) = 1 + fuelNeedMembers (kv :: kvs2) := rfl
          have hc2 : c ∈ '{' :: (dumpMembers (kv :: kvs2) ++ ['}']) := hc
          rcases List.mem_cons.mp hc2 with rfl | h2
          · exact ⟨by decide, by decide⟩
          · rcases List.mem_append.mp h2 with h3 | h3
            · exact ihM kv kvs2 (by omega) hok c h3
            · rw [List.mem_singleton] at h3
              subst h3
              exact ⟨by decide, by decide⟩
    · intro x xs h hok c hc
      cases xs with
      | nil =>
        have h1 : fuelNeedElems [x] = 1 + fuelNeedVal x := rfl
        have hokx : jsonOkVal x = true := by
          have h2 : (jsonOkVal x && jsonOkElems []) = true := hok
          rw [Bool.and_eq_true] at h2
          exact h2.1
        exact ihV x (by omega) hokx c hc
      | cons y ys =>
        have h1 : fuelNeedElems (x :: y :: ys)
            = 1 + fuelNeedVal x + fuelNeedElems (y :: ys) := rfl
        have hok2 : (jsonOkVal x && jsonOkElems (y :: ys)) = true := hok
        rw [Bool.and_eq_true] at hok2
        have hc2 : c ∈ (dumpVal x ++ [',', ' ']) ++ dumpElems (y :: ys) := hc
        rcases List.mem_append.mp hc2 with h2 | h2
        · rcases List.mem_append.mp h2 with h3 | h3
          · exact ihV x (by omega) hok2.1 c h3
          · fin_cases h3 <;> exact ⟨by decide, by decide⟩
        · exact ihE y ys (by omega) hok2.2 c h2
    · intro kv ms h hok c hc
      have hok2 : (kv.1.all okChar && jsonOkVal kv.2 && jsonOkMembers ms) = true := hok
      rw [Bool.and_eq_true, Bool.and_eq_true] at hok2
      cases ms with
      | nil =>
        have h1 : fuelNeedMembers [kv] = 1 + fuelNeedVal kv.2 := rfl
        have hc2 : c ∈ (dumpStr kv.1 ++ [':', ' ']) ++ dumpVal kv.2 := hc
        rcases List.mem_append.mp hc2 with h2 | h2
        · rcases List.mem_append.mp h2 with h3 | h3
          · exact dumpStr_charset hok2.1.1 c h3
          · fin_cases h3 <;> exact ⟨by decide, by decide⟩
        · exact ihV kv.2 (by omega) hok2.1.2 c h2
      | cons m ms2 =>
        have h1 : fuelNeedMembers (kv :: m :: ms2)
            = 1 + fuelNeedVal kv.2 + fuelNeedMembers (m :: ms2) := rfl
        have hc2 : c ∈ ((dumpStr kv.1 ++ [':', ' ']) ++ dumpVal kv.2 ++ [',', ' '])
            ++ dumpMembers (m :: ms2) := hc
        rcases List.mem_append.mp hc2 with h2 | h2
        · rcases List.mem_append.mp h2 with h3 | h3
          · rcases List.mem_append.mp h3 with h4 | h4
            · rcases List.mem_append.mp h4 with h5 | h5
              · exact dumpStr_charset hok2.1.1 c h5
              · fin_cases h5 <;> exact ⟨by decide, by decide⟩
            · exact ihV kv.2 (by omega) hok2.1.2 c h4
          · fin_cases h3 <;> exact ⟨by decide, by decide⟩
        · exact ihM m ms2 (by omega) hok2.2 c h2


theorem digit_not_psp {c : Char} (h : isDigitC c = true) : isPySpace c = false := by
  by_contra hw
  rw [Bool.not_eq_false] at hw
  simp only [isPySpace, Bool.or_eq_true, decide_eq_true_eq] at hw
  rcases hw with ((((rfl | rfl) | rfl) | rfl) | rfl) | rfl <;> exact absurd h (by decide)

theorem dump_head_psp (o : Json) :
    ∃ c cs, dumpVal o = c :: cs ∧ isPySpace c = false := by
  cases o with
  | null => exact ⟨'n', ['u', 'l', 'l'], rfl, rfl⟩
  | bool b =>
    cases b with
    | true => exact ⟨'t', ['r', 'u', 'e'], rfl, rfl⟩
    | false => exact ⟨'f', ['a', 'l', 's', 'e'], rfl, rfl⟩
  | num n =>
    cases n with
    | ofNat m =>
      obtain ⟨d, ds, heq⟩ := List.exists_cons_of_ne_nil (natDigits_all_digits m).1
      have hd : isDigitC d = true :=
        (natDigits_all_digits m).2 d (by rw [heq]; exact List.mem_cons_self _ _)
      exact ⟨d, ds, heq, digit_not_psp hd⟩
    | negSucc m => exact ⟨'-', natDigits (m + 1), rfl, rfl⟩
  | str s => exact ⟨'"', (s.map escChar).flatten ++ ['"'], rfl, rfl⟩
  | arr xs => exact ⟨'[', dumpElems xs ++ [']'], rfl, rfl⟩
  | obj kvs => exact ⟨'{', dumpMembers kvs ++ ['}'], rfl, rfl⟩

theorem dump_last_shape (o : Json) :
    ∃ t c, dumpVal o = t ++ [c] ∧ isPySpace c = false := by
  cases o with
  | null => exact ⟨['n', 'u', 'l'], 'l', rfl, rfl⟩
  | bool b =>
    cases b with
    | true => exact ⟨['t', 'r', 'u'], 'e', rfl, rfl⟩
    | false => exact ⟨['f', 'a', 'l', 's'], 'e', rfl, rfl⟩
  | num n =>
    cases n with
    | ofNat m =>
      have hne := (natDigits_all_digits m).1
      refine ⟨(natDigits m).dropLast, (natDigits m).getLast hne,
        (List.dropLast_append_getLast hne).symm, ?_⟩
      exact digit_not_psp ((natDigits_all_digits m).2 _ (List.getLast_mem hne))
    | negSucc m =>
      have hne := (natDigits_all_digits (m + 1)).1
      refine ⟨'-' :: (natDigits (m + 1)).dropLast, (natDigits (m + 1)).getLast hne, ?_, ?_⟩
      · show '-' :: natDigits (m + 1) = ('-' :: (natDigits (m + 1)).dropLast) ++ _
        rw [List.cons_append, List.dropLast_append_getLast hne]
      · exact digit_not_psp ((natDigits_all_digits (m + 1)).2 _ (List.getLast_mem hne))
  | str s => exact ⟨'"' :: (s.map escChar).flatten, '"', rfl, rfl⟩
  | arr xs => exact ⟨'[' :: dumpElems xs, ']', rfl, rfl⟩
  | obj kvs => exact ⟨'{' :: dumpMembers kvs, '}', rfl, rfl⟩

theorem pyStrip_dump (o : Json) : pyStrip (dumpVal o) = dumpVal o := by
  obtain ⟨c, cs, hdc, hh⟩ := dump_head_psp o
  obtain ⟨t, d, hdt, hl⟩ := dump_last_shape o
  unfold pyStrip
  rw [hdc, List.dropWhile_cons, if_neg (by simp [hh]), ← hdc, hdt]
  rw [List.reverse_append, List.reverse_singleton, List.singleton_append,
    List.dropWhile_cons, if_neg (by simp [hl])]
  rw [List.reverse_cons, List.reverse_reverse]

theorem pyReplaceF_no_head (p : Char) (pat rep : List Char) :
    ∀ (f : Nat) (cs : List Char), (∀ c ∈ cs, c ≠ p) →
      pyReplaceF f cs (p :: pat) rep = cs := by
  intro f
  induction f with
  | zero => intro cs _; rfl
  | succ f2 ih =>
    intro cs h
    cases cs with
    | nil => rfl
    | cons c t =>
      have hcp : c ≠ p := h c (List.mem_cons_self _ _)
      have h2 : (p :: pat).isPrefixOf (c :: t) = false := by
        show ((p == c) && pat.isPrefixOf t) = false
        rw [show (p == c) = false from beq_eq_false_iff_ne.mpr (Ne.symm hcp)]
        rfl
      simp only [pyReplaceF]
      rw [if_neg (by simp [h2])]
      rw [ih t (fun c2 hc2 => h c2 (List.mem_cons_of_mem _ hc2))]

theorem cleanEscapes_no_bs {l : List Char} (h : ∀ c ∈ l, c ≠ '\\') : cleanEscapes l = l := by
  have h1 : ∀ (tl rp : List Char), pyReplace l ('\\' :: tl) rp = l := fun tl rp =>
    pyReplaceF_no_head '\\' tl rp l.length l h
  unfold cleanEscapes
  rw [show ("\\n".data : List Char) = '\\' :: ['n'] from rfl, h1]
  rw [show ("\\t".data : List Char) = '\\' :: ['t'] from rfl, h1]
  rw [show ("\\\"".data : List Char) = '\\' :: ['"'] from rfl, h1]
  rw [show ("\\\\".data : List Char) = '\\' :: ['\\'] from rfl, h1]
  rw [show ("\\\x27".data : List Char) = '\\' :: ['\x27'] from rfl, h1]

theorem tailFence_false_of : ∀ (S t : List Char),
    (∃ c ∈ S, isPySpace c = false) → (∀ c ∈ S, c ≠ '\x60') →
    tailFence (S ++ t) = false := by
  intro S
  induction S with
  | nil =>
    intro t hex _
    obtain ⟨c, hc, _⟩ := hex
    exact absurd hc (List.not_mem_nil c)
  | cons s S2 ih =>
    intro t hex hnb
    by_cases hs : isPySpace s = true
    · have hex2 : ∃ c ∈ S2, isPySpace c = false := by
        obtain ⟨c, hc, hcw⟩ := hex
        rcases List.mem_cons.mp hc with rfl | h2
        · rw [hs] at hcw
          exact absurd hcw (by decide)
        · exact ⟨c, h2, hcw⟩
      unfold tailFence
      rw [List.cons_append, List.dropWhile_cons, if_pos hs]
      have h3 := ih t hex2 (fun c hc => hnb c (List.mem_cons_of_mem _ hc))
      unfold tailFence at h3
      exact h3
    · rw [Bool.not_eq_true] at hs
      unfold tailFence
      rw [List.cons_append, List.dropWhile_cons, if_neg (by simp [hs])]
      have hsb : s ≠ '\x60' := hnb s (List.mem_cons_self _ _)
      show (('\x60' == s) && _) = false
      rw [show ('\x60' == s) = false from beq_eq_false_iff_ne.mpr (Ne.symm hsb)]
      rfl

theorem lazyBody_run : ∀ (B acc t : List Char),
    (∀ c ∈ B, c ≠ '\x60') → tailFence t = true →
    lazyBody (B ++ '}' :: t) acc = some ('{' :: (acc.reverse ++ (B ++ ['}']))) := by
  intro B
  induction B with
  | nil =>
    intro acc t _ ht
    show lazyBody ('}' :: t) acc = _
    simp only [lazyBody]
    rw [if_pos (by simp [ht])]
    simp
  | cons b B2 ih =>
    intro acc t hnb ht
    show lazyBody (b :: (B2 ++ '}' :: t)) acc = _
    simp only [lazyBody]
    have hcond : (decide (b = '}') && tailFence (B2 ++ '}' :: t)) = false := by
      by_cases hb : b = '}'
      · have htf : tailFence (B2 ++ '}' :: t) = false := by
          rw [show B2 ++ '}' :: t = (B2 ++ ['}']) ++ t from by simp]
          refine tailFence_false_of (B2 ++ ['}']) t ⟨'}', by simp, by decide⟩ ?_
          intro c hc
          rcases List.mem_append.mp hc with h2 | h2
          · exact hnb c (List.mem_cons_of_mem _ h2)
          · rw [List.mem_singleton] at h2
            subst h2
            decide
        rw [htf, Bool.and_false]
      · rw [decide_eq_false hb, Bool.false_and]
    rw [if_neg (by simp [hcond])]
    rw [ih (b :: acc) t (fun c hc => hnb c (List.mem_cons_of_mem _ hc)) ht]
    simp

theorem isPrefixOf_append_self : ∀ (l t : List Char), l.isPrefixOf (l ++ t) = true := by
  intro l
  induction l with
  | nil => intro t; cases t <;> rfl
  | cons c l2 ih =>
    intro t
    show ((c == c) && l2.isPrefixOf (l2 ++ t)) = true
    rw [beq_self_eq_true, ih t]
    rfl

theorem matchFenceAt_mock (kvs : List (List Char × Json))
    (hnb : ∀ c ∈ dumpVal (Json.obj kvs), c ≠ '\x60') :
    matchFenceAt (mockFence (Json.obj kvs)) = some (dumpVal (Json.obj kvs)) := by
  have hnb2 : ∀ c ∈ dumpMembers kvs, c ≠ '\x60' := by
    intro c hc
    exact hnb c (List.mem_cons_of_mem _ (List.mem_append_left _ hc))
  unfold matchFenceAt mockFence
  rw [if_pos (isPrefixOf_append_self _ _), List.drop_left, List.dropWhile_cons,
    if_pos (by decide)]
  rw [show dumpVal (Json.obj kvs) ++ '\n' :: fenceTicks
      = '{' :: (dumpMembers kvs ++ '}' :: '\n' :: fenceTicks) from by
    show ('{' :: dumpMembers kvs ++ ['}']) ++ '\n' :: fenceTicks = _
    simp]
  rw [List.dropWhile_cons, if_neg (by decide)]
  show lazyBody (dumpMembers kvs ++ '}' :: '\n' :: fenceTicks) [] = some (dumpVal (Json.obj kvs))
  rw [lazyBody_run (dumpMembers kvs) [] ('\n' :: fenceTicks) hnb2 (by decide)]
  rfl

theorem search_fenced_cons (c : Char) (rest : List Char) :
    search_fenced (c :: rest) =
      match matchFenceAt (c :: rest) with
      | some g => some g
      | none => search_fenced rest := rfl

theorem search_fenced_mock (kvs : List (List Char × Json))
    (hnb : ∀ c ∈ dumpVal (Json.obj kvs), c ≠ '\x60') :
    search_fenced (mockFence (Json.obj kvs)) = some (dumpVal (Json.obj kvs)) := by
  have he : mockFence (Json.obj kvs)
      = '\x60' :: ('\x60' :: '\x60' :: 'j' :: 's' :: 'o' :: 'n'
        :: '\n' :: (dumpVal (Json.obj kvs) ++ '\n' :: fenceTicks)) := rfl
  rw [he, search_fenced_cons, ← he, matchFenceAt_mock kvs hnb]

theorem clean_text_mock (kvs : List (List Char × Json))
    (hok : jsonOkVal (Json.obj kvs) = true) :
    clean_text (mockFence (Json.obj kvs)) = dumpVal (Json.obj kvs) := by
  have hcs := (dump_charset (fuelNeedVal (Json.obj kvs))).1 (Json.obj kvs) (Nat.le_refl _) hok
  have hnb : ∀ c ∈ dumpVal (Json.obj kvs), c ≠ '\x60' := fun c hc => (hcs c hc).2
  have hbs : ∀ c ∈ dumpVal (Json.obj kvs), c ≠ '\\' := fun c hc => (hcs c hc).1
  have hne : mockFence (Json.obj kvs) ≠ [] := by
    rw [show mockFence (Json.obj kvs)
        = '\x60' :: ('\x60' :: '\x60' :: 'j' :: 's' :: 'o' :: 'n'
          :: '\n' :: (dumpVal (Json.obj kvs) ++ '\n' :: fenceTicks)) from rfl]
    simp
  unfold clean_text
  rw [if_neg hne, search_fenced_mock kvs hnb]
  show cleanEscapes (pyStrip (dumpVal (Json.obj kvs))) = dumpVal (Json.obj kvs)
  rw [pyStrip_dump, cleanEscapes_no_bs hbs]

theorem parse_chain_mock (kvs : List (List Char × Json))
    (hok : jsonOkVal (Json.obj kvs) = true) :
    parse_chain (mockFence (Json.obj kvs)) = Json.obj kvs := by
  simp only [parse_chain]
  rw [clean_text_mock kvs hok, json_loads_dump hok]

/-- Claim C1 counterexample: the claim fails for arbitrary JSON objects.  For
the object `\x7b"a": "\x7d\x60\x60\x60x"\x7d`, whose string value contains a closing brace
followed by a fence, the lazy fenced-block regex stops at the brace inside
the string; every parse attempt fails and the chain returns the failure
dictionary instead of the object. -/
theorem claim_C1_counterexample :
    parse_chain (mockFence (Json.obj [("a".data, Json.str "\x7d\x60\x60\x60x".data)]))
      ≠ Json.obj [("a".data, Json.str "\x7d\x60\x60\x60x".data)] := by
  intro h
  rw [show parse_chain (mockFence (Json.obj [("a".data, Json.str "\x7d\x60\x60\x60x".data)]))
      = parseFailObj ("\x7b\"a\": \"\x7d".data) from rfl] at h
  injection h with h2
  injection h2 with h3 h4
  injection h3 with h5 h6
  exact absurd h5 (by decide)

/-- Claim C1, amended: for every JSON object whose strings (keys and values)
consist of printable ASCII characters other than the double quote, the
backslash and the backtick, feeding the fenced serialization of the object
through the extraction chain of `classify_input`, `analyze_feature` and
`generate_tech_layer` returns exactly that object. -/
theorem claim_C1_fenced_roundtrip (kvs : List (List Char × Json))
    (hok : jsonOkVal (Json.obj kvs) = true) :
    parse_chain (mockFence (Json.obj kvs)) = Json.obj kvs :=
  parse_chain_mock kvs hok

theorem claim_C1_witness :
    jsonOkVal (Json.obj [("a".data, Json.str "b".data)]) = true ∧
    parse_chain (mockFence (Json.obj [("a".data, Json.str "b".data)]))
      = Json.obj [("a".data, Json.str "b".data)] :=
  ⟨by decide, claim_C1_fenced_roundtrip [("a".data, Json.str "b".data)] (by decide)⟩
